import Mathlib

/-!
Verification development for the LED/DigitalEvents syncing repository.

Shallow embedding of the core reconciliation engine:
* `syncing/anomalies.py`      — `AnomalyHandler.detect_anomalies`
* `syncing/handshake.py`      — `HandshakeDetector.find`
* `syncing/fix_anomalies.py`  — `AnomalyFixer.fix`
* `syncing/yline_check.py`    — `find_yline_after_start_handshake`

Timestamps are held in numpy `int64` arrays in the source; for the magnitudes
this program processes (uint32-range ticks plus a bounded number of `2^32`
offsets) `int64` arithmetic never wraps, so those values are embedded as
unbounded `Int`.  The one machine-width cast that genuinely wraps on real
data — `np.diff(...).astype(np.int32)` in the handshake detector — is
modelled explicitly by `toInt32`.
-/

namespace Syncing

/-- Wrap an integer into the `int32` range, as numpy's `astype(np.int32)` does. -/
def toInt32 (x : Int) : Int := (x + 2 ^ 31) % 2 ^ 32 - 2 ^ 31

/-- Python/numpy indexing: a nonnegative index `k` is valid when `k < n`;
a negative index counts from the end (`n + k`) and is valid when `n + k ≥ 0`.
Returns the effective position, or `none` for an `IndexError`. -/
def pyIdx (n : Nat) (k : Int) : Option Nat :=
  if 0 ≤ k then (if k.toNat < n then some k.toNat else none)
  else (if 0 ≤ (n : Int) + k then some ((n : Int) + k).toNat else none)

/-- Python/numpy element access `l[k]` with negative-index semantics. -/
def pyGet (l : List α) (k : Int) (dflt : α) : Option α :=
  (pyIdx l.length k).map (fun j => l.getD j dflt)

/-! ## `syncing/anomalies.py` — AnomalyHandler.detect_anomalies -/

/-- `np.diff(timestamps)`: first differences `ts[i+1] - ts[i]`. -/
def npDiff (ts : List Int) : List Int :=
  List.zipWith (fun a b => b - a) ts ts.tail

/-- `sum(diffs[i:i+n])`: Python slice sum, truncated at the end of the list. -/
def sliceSum (l : List Int) (i n : Nat) : Int :=
  ((l.drop i).take n).sum

/-- One iteration of the `detect_anomalies` loop at index `i`: reads `dt`
from the (possibly already mutated) diff array, returns the updated diff
array together with the label recorded for `i` (`none` = normal event).
Branch order is exactly the `if`/`elif` chain of the source. -/
def detectStep (e t p : Int) (diffs : List Int) (i : Nat) : List Int × Option String :=
  let dt := diffs.getD i 0
  if dt < 0 then
    (diffs.set i (dt + 2 ^ 32), some "overflow")
  else if |dt - e| ≤ t then
    (diffs, none)
  else if |dt - 2 * e| ≤ t then
    (diffs, some "merge")
  else if |sliceSum diffs i 2 - e| ≤ t then
    (diffs, some "split_2")
  else if |sliceSum diffs i 3 - e| ≤ t then
    (diffs, some "split_3")
  else if dt > p then
    (diffs, some "pause")
  else
    (diffs, some "unclassified")

/-- The `for i, dt in enumerate(diffs)` loop, run for `r` more indices
starting at `i`, threading the in-place-mutated diff array. -/
def detectFrom (e t p : Int) : List Int → Nat → Nat → List (Nat × String)
  | _, _, 0 => []
  | d, i, r + 1 =>
    match detectStep e t p d i with
    | (d2, some s) => (i, s) :: detectFrom e t p d2 (i + 1) r
    | (d2, none) => detectFrom e t p d2 (i + 1) r

/-- `AnomalyHandler.detect_anomalies(timestamps)` for an
`AnomalyHandler(expected_diff=e, threshold=t, pause_threshold=p)`. -/
def detect_anomalies (e t p : Int) (ts : List Int) : List (Nat × String) :=
  detectFrom e t p (npDiff ts) 0 (npDiff ts).length

/-- Written from the claim's words: the label of interval index `i`, decided
by the fixed priority order directly on the diff sequence (out-of-range
neighbours contribute nothing to the interval sums, as in the truncated
Python slices). -/
def claimLabel (e t p : Int) (diffs : List Int) (i : Nat) : Option String :=
  let dt := diffs.getD i 0
  if dt < 0 then some "overflow"
  else if |dt - e| ≤ t then none
  else if |dt - 2 * e| ≤ t then some "merge"
  else if |diffs.getD i 0 + diffs.getD (i + 1) 0 - e| ≤ t then some "split_2"
  else if |diffs.getD i 0 + diffs.getD (i + 1) 0 + diffs.getD (i + 2) 0 - e| ≤ t then
    some "split_3"
  else if dt > p then some "pause"
  else some "unclassified"

/-- Written from the claim's words: every interval index gets at most one
label, first matching rule winning, independently across indices. -/
def claimClassification (e t p : Int) (ts : List Int) : List (Nat × String) :=
  (List.range (npDiff ts).length).filterMap
    (fun i => (claimLabel e t p (npDiff ts) i).map (fun s => (i, s)))

/-! ## `syncing/handshake.py` — HandshakeDetector.find

A pattern table (`handshake_start_sequences` / `handshake_stop_sequences`)
is a list of `(name, signature)` pairs in dict insertion order. -/

/-- `np.diff(timestamps).astype(np.int32)` — diffs cast (with wraparound)
to `int32`. -/
def hsDiffs (ts : List Int) : List Int :=
  (List.zipWith (fun a b => b - a) ts ts.tail).map toInt32

/-- `sorted(table.items(), key=lambda x: -len(x[1]))`: Python's stable sort by
descending signature length.  `insertLenDesc` places a new item after every
already-placed item of greater-or-equal length, so insertion order is kept
among equal lengths. -/
def insertLenDesc (x : String × List Int) :
    List (String × List Int) → List (String × List Int)
  | [] => [x]
  | y :: ys => if x.2.length ≤ y.2.length then y :: insertLenDesc x ys else x :: y :: ys

/-- Stable sort of a pattern table by descending signature length. -/
def sortByLenDesc (t : List (String × List Int)) : List (String × List Int) :=
  t.foldl (fun acc x => insertLenDesc x acc) []

/-- `any(j in covered for j in range(i, i + seq_len))`. -/
def windowHits (cov : List Nat) (i L : Nat) : Bool :=
  (List.range' i L).any (fun j => cov.contains j)

/-- `np.all(np.abs(sub - seq_arr) <= tolerance)` for `sub = diffs[i:i+L]`,
with `int32` wrapping of the subtraction and of `np.abs` (as numpy does). -/
def matchesAt (diffs : List Int) (tol : Int) (seq : List Int) (i : Nat) : Bool :=
  (List.range seq.length).all
    (fun j => decide (toInt32 |toInt32 (diffs.getD (i + j) 0 - seq.getD j 0)| ≤ tol))

/-- Candidate offsets `range(len(diffs) - seq_len + 1)` (empty when the
signature is longer than the diff sequence). -/
def offsetsFor (diffs : List Int) (L : Nat) : List Nat :=
  List.range (diffs.length + 1 - L)

/-- Inner offset loop of the STOP-sequence scan: skips any candidate whose
window touches the covered set, otherwise records a match and covers its
window.  Matches are kept paired with their pattern name. -/
def scanStopGo (diffs : List Int) (tol : Int) (name : String) (seq : List Int) :
    List Nat → List ((Nat × Nat) × String) → List Nat →
      List ((Nat × Nat) × String) × List Nat
  | [], ms, cov => (ms, cov)
  | i :: rest, ms, cov =>
    if windowHits cov i seq.length then
      scanStopGo diffs tol name seq rest ms cov
    else if matchesAt diffs tol seq i then
      scanStopGo diffs tol name seq rest
        (ms ++ [((i, i + seq.length), name)]) (cov ++ List.range' i seq.length)
    else
      scanStopGo diffs tol name seq rest ms cov

/-- The STOP-table scan: patterns in descending-length order, one shared
covered set across patterns. -/
def scanStopTable (diffs : List Int) (tol : Int) (table : List (String × List Int)) :
    List ((Nat × Nat) × String) × List Nat :=
  (sortByLenDesc table).foldl
    (fun st pat => scanStopGo diffs tol pat.1 pat.2 (offsetsFor diffs pat.2.length) st.1 st.2)
    ([], [])

/-- Inner offset loop of the START-sequence scan: skips a candidate whose
starting offset is already start-covered, or whose window touches the
stop-covered set. -/
def scanStartGo (diffs : List Int) (tol : Int) (name : String) (seq : List Int)
    (covStop : List Nat) :
    List Nat → List ((Nat × Nat) × String) → List Nat →
      List ((Nat × Nat) × String) × List Nat
  | [], ms, cov => (ms, cov)
  | i :: rest, ms, cov =>
    if cov.contains i then
      scanStartGo diffs tol name seq covStop rest ms cov
    else if windowHits covStop i seq.length then
      scanStartGo diffs tol name seq covStop rest ms cov
    else if matchesAt diffs tol seq i then
      scanStartGo diffs tol name seq covStop rest
        (ms ++ [((i, i + seq.length), name)]) (cov ++ List.range' i seq.length)
    else
      scanStartGo diffs tol name seq covStop rest ms cov

/-- The START-table scan, run after the stop scan with its covered set. -/
def scanStartTable (diffs : List Int) (tol : Int) (table : List (String × List Int))
    (covStop : List Nat) : List ((Nat × Nat) × String) × List Nat :=
  (sortByLenDesc table).foldl
    (fun st pat =>
      scanStartGo diffs tol pat.1 pat.2 covStop (offsetsFor diffs pat.2.length) st.1 st.2)
    ([], [])

/-- Lexicographic `≤` on `(begin, end)` range tuples, as Python compares them. -/
def rangeLe (a b : Nat × Nat) : Bool :=
  a.1 < b.1 || (a.1 == b.1 && a.2 ≤ b.2)

/-- Stable insertion for `sorted(zip(indices, names), key=lambda x: x[0])`. -/
def insertByRange (x : (Nat × Nat) × String) :
    List ((Nat × Nat) × String) → List ((Nat × Nat) × String)
  | [] => [x]
  | y :: ys => if rangeLe y.1 x.1 then y :: insertByRange x ys else x :: y :: ys

/-- Python's stable sort of `(range, name)` pairs by the range tuple. -/
def sortRanges (l : List ((Nat × Nat) × String)) : List ((Nat × Nat) × String) :=
  l.foldl (fun acc x => insertByRange x acc) []

/-- The pairing loop: `k`-th sorted start with `k`-th sorted stop; any pair
with `start_end ≥ stop_begin` raises a `HandshakeError`. -/
def pairLoop : List ((Nat × Nat) × String) → List ((Nat × Nat) × String) →
    Except String (List ((Nat × Nat) × (Nat × Nat)) × List String × List String)
  | (sr, sn) :: ss, (tr, tn) :: ts =>
    if sr.2 < tr.1 then
      match pairLoop ss ts with
      | .ok (ps, sns, tns) => .ok ((sr, tr) :: ps, sn :: sns, tn :: tns)
      | .error msg => .error msg
    else
      .error "Stop sequence before start sequence"
  | _, _ => .ok ([], [], [])

/-- `HandshakeDetector.find(timestamps, tolerance)` for a detector configured
with the given start/stop tables.  Raised `ValueError`/`HandshakeError`s are
the `.error` cases. -/
def find (startTable stopTable : List (String × List Int)) (ts : List Int)
    (tol : Int) :
    Except String (List ((Nat × Nat) × (Nat × Nat)) × List String × List String) :=
  if ts.length < 2 then .error "Not enough timestamps for handshake detection"
  else
    let diffs := hsDiffs ts
    let stopRes := scanStopTable diffs tol stopTable
    let startRes := scanStartTable diffs tol startTable stopRes.2
    if startRes.1.isEmpty || stopRes.1.isEmpty then
      .error "No valid sequences found"
    else if startRes.1.length ≠ stopRes.1.length then
      .error "Mismatch in sequence counts"
    else
      pairLoop (sortRanges startRes.1) (sortRanges stopRes.1)

/-! ## `syncing/fix_anomalies.py` — AnomalyFixer.fix -/

/-- One row of the correction log (`record` dict of the source).  Fields that
Python sets to `None` are `Option`s. -/
structure CorrectionRecord where
  original_index : Nat
  original_timestamp : Int
  original_linetype : Int
  anomaly_type : String
  handshake_phase : String
  overflow_fix : Bool
  overflow_offset : Int
  mea_indices_used : List Int
  skip_count : Option Nat
  extra_inserts : Option Nat
  delta_original : Option Int
  delta_corrected : Option Int
  delta_diff_change : Option Int
  corrected_timestamp : Option Int
deriving Repr, DecidableEq

/-- The mutable state of the reconciliation loop. -/
structure FixState where
  corrected_ts : List Int
  corrected_patterns : List (List Int)
  records : List CorrectionRecord
  d_e_index : Nat
  prev_orig_ts : Option Int
  prev_corr_ts : Option Int
deriving Repr, DecidableEq

/-- Python dict built from an association list (`{idx: t for idx, t in ...}`):
the last binding for a key wins. -/
def lookupLast (m : List (Nat × String)) (i : Nat) : Option String :=
  (m.reverse.find? (fun a => a.1 == i)).map (fun a => a.2)

/-- The `handshake_map` insertions: for each pair, `start_handshake` over
timestamp indices `start[0]..start[1]` then `stop_handshake` over
`stop[0]..stop[1]` (both ends inclusive, as `range(r[0], r[1]+1)`). -/
def handshakeAssignments (pairs : List ((Nat × Nat) × (Nat × Nat))) :
    List (Nat × String) :=
  pairs.flatMap (fun pr =>
    (List.range' pr.1.1 (pr.1.2 + 1 - pr.1.1)).map (fun j => (j, "start_handshake")) ++
    (List.range' pr.2.1 (pr.2.2 + 1 - pr.2.1)).map (fun j => (j, "stop_handshake")))

/-- The global overflow normalization scan, threading the running `offset`
and the previous *already updated* array element (the source mutates
`arduino_ts` in place, so the comparison at `idx` reads the corrected value
at `idx - 1`). -/
def overflowGo (prev : Option Int) (offset : Int) :
    List Int → List Int × List (Bool × Int)
  | [] => ([], [])
  | t :: rest =>
    let fire := match prev with
      | some p => decide (t < p)
      | none => false
    let off2 := if fire then offset + 2 ^ 32 else offset
    let t2 := t + off2
    let r := overflowGo (some t2) off2 rest
    (t2 :: r.1, (fire, off2) :: r.2)

/-- The `--- Global overflow fix ---` block: returns the corrected array and
`overflow_info`. -/
def overflowScan (ts : List Int) : List Int × List (Bool × Int) :=
  overflowGo none 0 ts

/-- The per-iteration `record` template (before anomaly handling). -/
def mkTemplate (i : Nat) (orig lt : Int) (atype : Option String) (hphase : String)
    (oflag : Bool) (ooff : Int) (prevOrig : Option Int) : CorrectionRecord where
  original_index := i
  original_timestamp := orig
  original_linetype := lt
  anomaly_type := atype.getD "normal"
  handshake_phase := hphase
  overflow_fix := oflag
  overflow_offset := ooff
  mea_indices_used := []
  skip_count := some 0
  extra_inserts := some 0
  delta_original := prevOrig.map (fun p => orig - p)
  delta_corrected := none
  delta_diff_change := none
  corrected_timestamp := none

/-- One iteration of the reconciliation loop at original index `i`.  Returns
the updated state and whether an exception was raised; on a raise the state
keeps exactly the appends that happened before the failing access, as the
source's shared lists do. -/
def fixStep (anoms hm : List (Nat × String)) (oinfo : List (Bool × Int))
    (ats : List Int) (pats : List (List Int)) (lts : List Int) (mea : List Int)
    (i : Nat) (st : FixState) : FixState × Bool :=
  let orig := ats.getD i 0
  let pat := pats.getD i []
  let lt := lts.getD i 0
  let atype := lookupLast anoms i
  let oi := oinfo.getD i (false, 0)
  let rec0 := mkTemplate i orig lt atype ((lookupLast hm i).getD "none") oi.1 oi.2
    st.prev_orig_ts
  match atype with
  | some "split_2" =>
    match pyGet mea ((st.d_e_index : Int) - 1) 0 with
    | none => (st, true)
    | some meaPrev =>
      match pyGet ats ((i : Int) - 1) 0 with
      | none => (st, true)
      | some atsPrev =>
        let first := meaPrev + (orig - atsPrev)
        let rec1 := { rec0 with
          corrected_timestamp := some first
          extra_inserts := some 1
          mea_indices_used := [(st.d_e_index : Int) - 1]
          delta_corrected := st.prev_corr_ts.map (fun pc => first - pc) }
        let st1 := { st with
          corrected_ts := st.corrected_ts ++ [first]
          corrected_patterns := st.corrected_patterns ++ [pat]
          records := st.records ++ [rec1] }
        match pyGet mea (st.d_e_index : Int) 0 with
        | none => (st1, true)
        | some second =>
          let st2 := { st1 with corrected_ts := st1.corrected_ts ++ [second] }
          match pyGet pats ((i : Int) + 1) [] with
          | none => (st2, true)
          | some patNext =>
            let rec2 := { rec0 with
              corrected_timestamp := some second
              extra_inserts := some 0
              mea_indices_used := [(st.d_e_index : Int)]
              delta_original := none
              delta_corrected := none }
            ({ st2 with
               corrected_patterns := st2.corrected_patterns ++ [patNext]
               records := st2.records ++ [rec2]
               d_e_index := st.d_e_index + 1
               prev_orig_ts := some orig
               prev_corr_ts := some second }, false)
  | some "split_3" =>
    match pyGet mea ((st.d_e_index : Int) - 1) 0 with
    | none => (st, true)
    | some meaPrev =>
      match pyGet ats ((i : Int) - 1) 0 with
      | none => (st, true)
      | some atsPrev =>
        let first := meaPrev + (orig - atsPrev)
        let rec1 := { rec0 with
          corrected_timestamp := some first
          extra_inserts := some 2
          mea_indices_used := [(st.d_e_index : Int) - 1] }
        let st1 := { st with
          corrected_ts := st.corrected_ts ++ [first]
          corrected_patterns := st.corrected_patterns ++ [pat]
          records := st.records ++ [rec1] }
        match pyGet ats ((i : Int) + 1) 0 with
        | none => (st1, true)
        | some atsNext =>
          match pyGet ats (i : Int) 0 with
          | none => (st1, true)
          | some atsCur =>
            let second := meaPrev + (orig - atsPrev) + (atsNext - atsCur)
            let st2 := { st1 with corrected_ts := st1.corrected_ts ++ [second] }
            match pyGet pats ((i : Int) + 1) [] with
            | none => (st2, true)
            | some patNext =>
              let rec2 := { rec0 with
                corrected_timestamp := some second
                extra_inserts := some 1
                mea_indices_used := [(st.d_e_index : Int) - 1] }
              let st3 := { st2 with
                corrected_patterns := st2.corrected_patterns ++ [patNext]
                records := st2.records ++ [rec2] }
              match pyGet mea (st.d_e_index : Int) 0 with
              | none => (st3, true)
              | some third =>
                let st4 := { st3 with corrected_ts := st3.corrected_ts ++ [third] }
                match pyGet pats ((i : Int) + 2) [] with
                | none => (st4, true)
                | some patNext2 =>
                  let rec3 := { rec0 with
                    corrected_timestamp := some third
                    extra_inserts := some 0
                    mea_indices_used := [(st.d_e_index : Int)] }
                  ({ st4 with
                     corrected_patterns := st4.corrected_patterns ++ [patNext2]
                     records := st4.records ++ [rec3]
                     d_e_index := st.d_e_index + 1
                     prev_orig_ts := some orig
                     prev_corr_ts := some third }, false)
  | _ =>
    -- normal (no anomaly), merge, pause, unclassified, and any unknown label
    -- all map the event to the reference timestamp at the cursor; merge
    -- additionally skips one reference entry.
    match pyGet mea (st.d_e_index : Int) 0 with
    | none => (st, true)
    | some corr =>
      let isMerge := atype == some "merge"
      let rec1 := { rec0 with
        mea_indices_used := [(st.d_e_index : Int)]
        skip_count := some (if isMerge then 1 else 0) }
      -- `delta_corrected`/`delta_diff_change` are set only when the previous
      -- corrected timestamp (and, for the latter, `delta_original`) exist.
      let rec2 := { rec1 with
        delta_corrected := st.prev_corr_ts.map (fun pc => corr - pc)
        delta_diff_change := st.prev_corr_ts.bind (fun pc =>
          rec1.delta_original.map (fun d => (corr - pc) - d)) }
      ({ st with
         corrected_ts := st.corrected_ts ++ [corr]
         corrected_patterns := st.corrected_patterns ++ [pat]
         records := st.records ++ [{ rec2 with corrected_timestamp := some corr }]
         d_e_index := st.d_e_index + (if isMerge then 2 else 1)
         prev_orig_ts := some orig
         prev_corr_ts := some corr }, false)

/-- The `for i, (...) in enumerate(zip(...))` loop over `r` more indices
starting at `i`; a raise stops the loop and reports the raising index. -/
def fixLoop (anoms hm : List (Nat × String)) (oinfo : List (Bool × Int))
    (ats : List Int) (pats : List (List Int)) (lts : List Int) (mea : List Int) :
    Nat → FixState → Nat → FixState × Option Nat
  | _, st, 0 => (st, none)
  | i, st, r + 1 =>
    match fixStep anoms hm oinfo ats pats lts mea i st with
    | (st2, false) => fixLoop anoms hm oinfo ats pats lts mea (i + 1) st2 r
    | (st2, true) => (st2, some i)

/-- One placeholder row of the `except` block for original index `j`.  The
linetype access is a plain list index and can itself raise (`none`) when the
linetype list is shorter. -/
def placeholderRow (hm : List (Nat × String)) (oinfo : List (Bool × Int))
    (ats : List Int) (lts : List Int) (j : Nat) : Option CorrectionRecord :=
  (pyGet lts (Int.ofNat j) 0).map (fun lt =>
    { original_index := j
      original_timestamp := ats.getD j 0
      original_linetype := lt
      anomaly_type := "not_fixed_due_to_error"
      handshake_phase := (lookupLast hm j).getD "none"
      overflow_fix := (oinfo.getD j (false, 0)).1
      overflow_offset := (oinfo.getD j (false, 0)).2
      mea_indices_used := []
      skip_count := none
      extra_inserts := none
      delta_original := none
      delta_corrected := none
      delta_diff_change := none
      corrected_timestamp := none })

/-- The placeholder rows the `except` block appends for original indices
`k .. len(arduino_ts) - 1`. -/
def buildPlaceholders (hm : List (Nat × String)) (oinfo : List (Bool × Int))
    (ats : List Int) (lts : List Int) (k : Nat) : Option (List CorrectionRecord) :=
  (List.range' k (ats.length - k)).mapM (placeholderRow hm oinfo ats lts)

/-- `os.path.splitext(p)[0]`: drop the extension at the last dot of the final
path component, unless every character before that dot in the component is a
dot. -/
def splitextRoot (s : String) : String :=
  let cs := s.toList
  let start := match (cs.reverse.findIdx? (fun c => c = '/')) with
    | some j => cs.length - j
    | none => 0
  let base := cs.drop start
  match (base.reverse.findIdx? (fun c => c = '.')) with
  | none => s
  | some j =>
    let d := base.length - 1 - j
    if (base.take d).all (fun c => c = '.') then s
    else String.mk (cs.take (start + d))

/-- Everything `AnomalyFixer.fix` persists: the success flag, the saved
corrected arrays, the correction-log rows, and the two artifact paths
actually written to.  `none` models a crash inside the `except` handler
itself (an index error while building placeholder rows). -/
structure FixOutput where
  success : Bool
  corrected_ts : List Int
  corrected_patterns : List (List Int)
  records : List CorrectionRecord
  npz_path : String
  csv_path : String
deriving Repr, DecidableEq

/-- `AnomalyFixer(anomalies, ...).fix(arduino_ts, arduino_patterns,
arduino_linetypes, mea_ts, output_npz_path, correction_log_path,
handshake_pairs)`. -/
def fix (anoms : List (Nat × String)) (ats0 : List Int) (pats : List (List Int))
    (lts : List Int) (mea : List Int) (npzPath csvPath : String)
    (pairs : List ((Nat × Nat) × (Nat × Nat))) : Option FixOutput :=
  let hm := handshakeAssignments pairs
  let scanned := overflowScan ats0
  let ats := scanned.1
  let oinfo := scanned.2
  let n := min ats.length (min pats.length lts.length)
  let init : FixState := ⟨[], [], [], 0, none, none⟩
  match fixLoop anoms hm oinfo ats pats lts mea 0 init n with
  | (st, none) =>
    some ⟨true, st.corrected_ts, st.corrected_patterns, st.records, npzPath, csvPath⟩
  | (st, some k) =>
    (buildPlaceholders hm oinfo ats lts k).map (fun ph =>
      ⟨false, st.corrected_ts, st.corrected_patterns, st.records ++ ph,
        splitextRoot npzPath ++ "_partial.npz",
        splitextRoot csvPath ++ "_partial.csv"⟩)

/-! ## `syncing/yline_check.py` — find_yline_after_start_handshake -/

/-- One finding dict of `find_yline_after_start_handshake`. -/
structure YFinding where
  handshake_id : Nat
  start_diff_begin : Nat
  start_diff_end : Nat
  first_post_start_ts_index : Nat
deriving Repr, DecidableEq

/-- The `for k, (start_range, _stop_range) in enumerate(handshake_pairs,
start=1)` loop, with `ts_idx = se + 1` and the bounds check of the source. -/
def ylineGo (lts : List Int) (byteY : Int) (k : Nat) :
    List ((Nat × Nat) × (Nat × Nat)) → List YFinding
  | [] => []
  | pr :: rest =>
    let sb := pr.1.1
    let se := pr.1.2
    let tsIdx := se + 1
    (if tsIdx < lts.length ∧ lts.getD tsIdx 0 = byteY then
      [⟨k, sb, se, tsIdx⟩]
    else []) ++ ylineGo lts byteY (k + 1) rest

/-- `find_yline_after_start_handshake(arduino_linetypes, handshake_pairs,
byte_y)`. -/
def find_yline_after_start_handshake (lts : List Int)
    (pairs : List ((Nat × Nat) × (Nat × Nat))) (byteY : Int) : List YFinding :=
  ylineGo lts byteY 1 pairs

/-- Written from the amended claim's words: a finding is recorded exactly for
those pairs (numbered from 1 in order) whose index `start_range.end + 1` is
in range and carries the Y marker code, and the recorded
`first_post_start_ts_index` equals `start_range.end + 1`. -/
def amendedYline (lts : List Int) (pairs : List ((Nat × Nat) × (Nat × Nat)))
    (byteY : Int) : List YFinding :=
  (pairs.enumFrom 1).filterMap (fun it =>
    if it.2.1.2 + 1 < lts.length ∧ lts.getD (it.2.1.2 + 1) 0 = byteY then
      some ⟨it.1, it.2.1.1, it.2.1.2, it.2.1.2 + 1⟩
    else none)

/-! ## Classifier lemmas and claim C1 -/

lemma sliceSum_two : ∀ (i : Nat) (l : List Int),
    sliceSum l i 2 = l.getD i 0 + l.getD (i + 1) 0 := by
  intro i
  induction i with
  | zero =>
    intro l
    match l with
    | [] => simp [sliceSum]
    | [a] => simp [sliceSum]
    | a :: b :: t => simp [sliceSum]
  | succ i ih =>
    intro l
    match l with
    | [] => simp [sliceSum]
    | a :: t => simpa [sliceSum] using ih t

lemma sliceSum_three : ∀ (i : Nat) (l : List Int),
    sliceSum l i 3 = l.getD i 0 + l.getD (i + 1) 0 + l.getD (i + 2) 0 := by
  intro i
  induction i with
  | zero =>
    intro l
    match l with
    | [] => simp [sliceSum]
    | [a] => simp [sliceSum]
    | [a, b] => simp [sliceSum]
    | a :: b :: c :: t => simp [sliceSum]; ring
  | succ i ih =>
    intro l
    match l with
    | [] => simp [sliceSum]
    | a :: t => simpa [sliceSum] using ih t

/-- `detectStep` splits into its array effect and a pure label read off the
current diff array. -/
lemma detectStep_eq (e t p : Int) (d : List Int) (i : Nat) :
    detectStep e t p d i =
      ((if d.getD i 0 < 0 then d.set i (d.getD i 0 + 2 ^ 32) else d),
        claimLabel e t p d i) := by
  simp only [detectStep, claimLabel, sliceSum_two, sliceSum_three]
  split_ifs <;> rfl

/-- The label at `i` only reads the diff array at `i`, `i+1`, `i+2`. -/
lemma claimLabel_congr (e t p : Int) (d d0 : List Int) (i : Nat)
    (h0 : d.getD i 0 = d0.getD i 0) (h1 : d.getD (i + 1) 0 = d0.getD (i + 1) 0)
    (h2 : d.getD (i + 2) 0 = d0.getD (i + 2) 0) :
    claimLabel e t p d i = claimLabel e t p d0 i := by
  simp only [claimLabel, h0, h1, h2]

/-- The mutating classifier loop agrees with the pure per-index
classification: the in-place overflow correction at an index is never read
by the interval sums at other indices. -/
lemma detectFrom_eq_claim (e t p : Int) (diffs0 : List Int) :
    ∀ (r i : Nat) (d : List Int),
      (∀ j, i ≤ j → d.getD j 0 = diffs0.getD j 0) →
      detectFrom e t p d i r =
        (List.range' i r).filterMap
          (fun j => (claimLabel e t p diffs0 j).map (fun s => (j, s))) := by
  intro r
  induction r with
  | zero => intro i d _; simp [detectFrom]
  | succ r ih =>
    intro i d hagree
    have hlab : claimLabel e t p d i = claimLabel e t p diffs0 i :=
      claimLabel_congr e t p d diffs0 i (hagree i (le_refl i))
        (hagree _ (by omega)) (hagree _ (by omega))
    have hag2 : ∀ j, i + 1 ≤ j →
        (if d.getD i 0 < 0 then d.set i (d.getD i 0 + 2 ^ 32) else d).getD j 0 =
          diffs0.getD j 0 := by
      intro j hj
      split
      · rw [List.getD_eq_getElem?_getD, List.getElem?_set_ne (by omega),
          ← List.getD_eq_getElem?_getD]
        exact hagree j (by omega)
      · exact hagree j (by omega)
    have hunf : detectFrom e t p d i (r + 1) =
        match detectStep e t p d i with
        | (d2, some s) => (i, s) :: detectFrom e t p d2 (i + 1) r
        | (d2, none) => detectFrom e t p d2 (i + 1) r := rfl
    rw [List.range'_succ, List.filterMap_cons, hunf, detectStep_eq, hlab]
    cases hcl : claimLabel e t p diffs0 i with
    | none => simpa [hcl] using ih (i + 1) _ hag2
    | some s => simpa [hcl] using ih (i + 1) _ hag2

/-- C1: `detect_anomalies` computes signed deltas and labels each interval
index by the fixed priority chain (overflow terminal with the in-place
`+ 2^32` correction, then normal, merge, split_2, split_3, pause,
unclassified — first matching rule wins, at most one label per index),
equivalently to the pure per-index classification `claimClassification`;
with `expected_diff = 62500`, `threshold = 1000`,
`pause_threshold = 300000`: `dt = 62500` yields no record, `dt = -5` yields
overflow with the interval corrected in place to `2^32 - 5`, `dt = 125000`
yields merge, and the consecutive intervals `(40000, 22500)` yield split_2
at the first index. -/
theorem C1_classifier_priority_order :
    (∀ (e t p : Int) (ts : List Int),
      detect_anomalies e t p ts = claimClassification e t p ts) ∧
    detect_anomalies 62500 1000 300000 [0, 62500] = [] ∧
    detect_anomalies 62500 1000 300000 [5, 0] = [(0, "overflow")] ∧
    detectStep 62500 1000 300000 [-5] 0 = ([2 ^ 32 - 5], some "overflow") ∧
    detect_anomalies 62500 1000 300000 [0, 125000] = [(0, "merge")] ∧
    (detect_anomalies 62500 1000 300000 [0, 40000, 62500]).head? =
      some (0, "split_2") := by
  refine ⟨fun e t p ts => ?_, by decide, by decide, by decide, by decide, by decide⟩
  rw [detect_anomalies, claimClassification, List.range_eq_range']
  exact detectFrom_eq_claim e t p (npDiff ts) (npDiff ts).length 0 (npDiff ts)
    (fun _ _ => rfl)

/-! ## Overflow normalization: claims C3 and C8 -/

/-- C3: evaluating the global overflow normalization at `[10, 5, 7]`.  The
raw input wraps only at index 1 (`5 < 10`), yet the scan also fires at
index 2 — the in-place comparison reads the already-corrected predecessor
`5 + 2^32`, so `7 < 5 + 2^32` fires and the cumulative offset becomes
`2 * 2^32` — contradicting the claim that the offset increments exactly at
raw-wrap indices (which predicts flags `[false, true, false]` and a final
offset of `2^32`). -/
theorem C3_overflow_scan_cascades :
    overflowScan [10, 5, 7] =
      ([10, 4294967301, 8589934599],
        [(false, 0), (true, 4294967296), (true, 8589934592)]) ∧
    (overflowScan [10, 5, 7]).2.map Prod.fst ≠ [false, true, false] ∧
    (overflowScan [10, 5, 7]).2.map Prod.snd ≠ [0, 4294967296, 4294967296] := by
  decide

lemma overflowGo_mono : ∀ (ts : List Int) (offset rp : Int), 0 ≤ offset →
    0 ≤ rp → rp < 2 ^ 32 →
    (∀ x ∈ ts, 0 ≤ x ∧ x < 2 ^ 32) →
    List.Chain' (· ≤ ·) ((overflowGo (some (rp + offset)) offset ts).1) ∧
    (∀ h ∈ ((overflowGo (some (rp + offset)) offset ts).1).head?, rp + offset ≤ h) := by
  intro ts
  induction ts with
  | nil => intro offset rp _ _ _ _; simp [overflowGo]
  | cons t rest ih =>
    intro offset rp hoff hrp0 hrp32 hbound
    obtain ⟨ht0, ht32⟩ := hbound t (List.mem_cons_self t rest)
    have hrest : ∀ x ∈ rest, 0 ≤ x ∧ x < 2 ^ 32 :=
      fun x hx => hbound x (List.mem_cons_of_mem t hx)
    by_cases hfire : t < rp + offset
    · have hoff2 : (0 : Int) ≤ offset + 2 ^ 32 := by positivity
      have := ih (offset + 2 ^ 32) t hoff2 ht0 ht32 hrest
      have harr : (overflowGo (some (rp + offset)) offset (t :: rest)).1 =
          (t + (offset + 2 ^ 32)) ::
            (overflowGo (some (t + (offset + 2 ^ 32))) (offset + 2 ^ 32) rest).1 := by
        simp [overflowGo, hfire]
      rw [harr]
      constructor
      · rw [List.chain'_cons']
        exact ⟨this.2, this.1⟩
      · intro h hh
        simp only [List.head?_cons, Option.mem_def, Option.some.injEq] at hh
        omega
    · have := ih offset t hoff ht0 ht32 hrest
      have harr : (overflowGo (some (rp + offset)) offset (t :: rest)).1 =
          (t + offset) :: (overflowGo (some (t + offset)) offset rest).1 := by
        simp [overflowGo, hfire]
      rw [harr]
      constructor
      · rw [List.chain'_cons']
        exact ⟨this.2, this.1⟩
      · intro h hh
        simp only [List.head?_cons, Option.mem_def, Option.some.injEq] at hh
        omega

/-- C8: for inputs whose elements are unsigned-32-bit values (in
`[0, 2^32)`), the globally normalized Arduino timestamp sequence is
non-decreasing. -/
theorem C8_normalized_sequence_monotone (ts : List Int)
    (hbound : ∀ x ∈ ts, 0 ≤ x ∧ x < 2 ^ 32) :
    List.Chain' (· ≤ ·) (overflowScan ts).1 := by
  cases ts with
  | nil => simp [overflowScan, overflowGo]
  | cons t rest =>
    obtain ⟨ht0, ht32⟩ := hbound t (List.mem_cons_self t rest)
    have hrest : ∀ x ∈ rest, 0 ≤ x ∧ x < 2 ^ 32 :=
      fun x hx => hbound x (List.mem_cons_of_mem t hx)
    have harr : (overflowScan (t :: rest)).1 =
        (t + 0) :: (overflowGo (some (t + 0)) 0 rest).1 := by
      simp [overflowScan, overflowGo]
    rw [harr, List.chain'_cons']
    have := overflowGo_mono rest 0 t (le_refl 0) ht0 ht32 hrest
    exact ⟨this.2, this.1⟩

/-- Witness for C8 at the concrete input `[10, 5, 7]`. -/
theorem C8_witness :
    (∀ x ∈ ([10, 5, 7] : List Int), 0 ≤ x ∧ x < 2 ^ 32) ∧
    List.Chain' (· ≤ ·) (overflowScan [10, 5, 7]).1 :=
  ⟨by decide, C8_normalized_sequence_monotone [10, 5, 7] (by decide)⟩

/-! ## Y-line check: claim C9 -/

/-- C9 counterexample: with linetypes `[0, 0, 9, 0]`, one handshake pair
whose start range is `(0, 2)` and Y marker code `9`, the linetype at
`start_range.end = 2` equals the Y code, so the claim predicts a finding at
index 2 — but the source inspects index `start_range.end + 1 = 3` and
returns no finding; conversely, placing the Y code at index 3 yields a
finding whose recorded index is 3, not 2. -/
theorem C9_counterexample :
    List.getD [0, 0, 9, 0] 2 0 = (9 : Int) ∧
    find_yline_after_start_handshake [0, 0, 9, 0] [((0, 2), (5, 6))] 9 = [] ∧
    find_yline_after_start_handshake [0, 0, 0, 9] [((0, 2), (5, 6))] 9 =
      [⟨1, 0, 2, 3⟩] := by
  decide

lemma ylineGo_eq_amended (lts : List Int) (byteY : Int) :
    ∀ (pairs : List ((Nat × Nat) × (Nat × Nat))) (k : Nat),
      ylineGo lts byteY k pairs =
        (pairs.enumFrom k).filterMap (fun it =>
          if it.2.1.2 + 1 < lts.length ∧ lts.getD (it.2.1.2 + 1) 0 = byteY then
            some ⟨it.1, it.2.1.1, it.2.1.2, it.2.1.2 + 1⟩
          else none) := by
  intro pairs
  induction pairs with
  | nil => intro k; simp [ylineGo]
  | cons pr rest ih =>
    intro k
    have hunf : ylineGo lts byteY k (pr :: rest) =
        (if pr.1.2 + 1 < lts.length ∧ lts.getD (pr.1.2 + 1) 0 = byteY then
          [⟨k, pr.1.1, pr.1.2, pr.1.2 + 1⟩] else []) ++
          ylineGo lts byteY (k + 1) rest := rfl
    have he : List.enumFrom k (pr :: rest) = (k, pr) :: List.enumFrom (k + 1) rest := rfl
    rw [hunf, he, List.filterMap_cons]
    by_cases hc : pr.1.2 + 1 < lts.length ∧ lts.getD (pr.1.2 + 1) 0 = byteY
    · rw [if_pos hc, ih (k + 1)]
      simp only [if_pos hc]
      rfl
    · rw [if_neg hc, ih (k + 1)]
      simp only [if_neg hc]
      rfl

/-- C9 amended: the Y-line check records a finding exactly when the
line-type at index `start_range.end + 1` (the first timestamp index after
the start pattern's last covered timestamp) is in range and equals the Y
marker code; the recorded `first_post_start_ts_index` equals that index,
and an out-of-range index yields no finding and no error. -/
theorem C9_yline_index_amended (lts : List Int)
    (pairs : List ((Nat × Nat) × (Nat × Nat))) (byteY : Int) :
    find_yline_after_start_handshake lts pairs byteY =
      amendedYline lts pairs byteY := by
  rw [find_yline_after_start_handshake, amendedYline]
  exact ylineGo_eq_amended lts byteY pairs 1

/-! ## Fixer: claim C10 (labels without a dedicated branch) -/

/-- C10: an event whose anomaly label is `overflow` — or any other label
outside {merge, split_2, split_3, pause, unclassified} — is handled by the
final `else` of the reconciliation loop exactly like a normal event: the
reference timestamp at the current cursor becomes the corrected timestamp,
that single reference index is recorded (with skip count 0), and the cursor
advances by 1; when the cursor access fails the step raises leaving the
state untouched, just as for a normal event. -/
theorem C10_unknown_label_handled_as_normal :
    ∀ (anoms hm : List (Nat × String)) (oinfo : List (Bool × Int))
      (ats : List Int) (pats : List (List Int)) (lts : List Int) (mea : List Int)
      (i : Nat) (st : FixState) (s : String),
      lookupLast anoms i = some s →
      s ≠ "merge" → s ≠ "split_2" → s ≠ "split_3" →
      (pyGet mea (st.d_e_index : Int) 0 = none →
        fixStep anoms hm oinfo ats pats lts mea i st = (st, true)) ∧
      (∀ v, pyGet mea (st.d_e_index : Int) 0 = some v →
        (fixStep anoms hm oinfo ats pats lts mea i st).2 = false ∧
        (fixStep anoms hm oinfo ats pats lts mea i st).1.d_e_index =
          st.d_e_index + 1 ∧
        (fixStep anoms hm oinfo ats pats lts mea i st).1.corrected_ts =
          st.corrected_ts ++ [v] ∧
        (fixStep anoms hm oinfo ats pats lts mea i st).1.records.dropLast =
          st.records ∧
        ((fixStep anoms hm oinfo ats pats lts mea i st).1.records.getLast?).map
            (fun r => (r.anomaly_type, r.mea_indices_used, r.skip_count,
              r.corrected_timestamp)) =
          some (s, [(st.d_e_index : Int)], some 0, some v)) := by
  intro anoms hm oinfo ats pats lts mea i st s hl hne1 hne2 hne3
  have hbeq : (some s == some "merge") = false := by simp [hne1]
  constructor
  · intro hnone
    simp only [fixStep, hl]
    split
    · rename_i heq
      simp only [Option.some.injEq] at heq
      exact absurd heq hne2
    · rename_i heq
      simp only [Option.some.injEq] at heq
      exact absurd heq hne3
    · rw [hnone]
  · intro v hv
    simp only [fixStep, hl]
    split
    · rename_i heq
      simp only [Option.some.injEq] at heq
      exact absurd heq hne2
    · rename_i heq
      simp only [Option.some.injEq] at heq
      exact absurd heq hne3
    · rw [hv]
      cases hpc : st.prev_corr_ts with
      | none => simp [hbeq, mkTemplate, List.getLast?_concat]
      | some pc => simp [hbeq, mkTemplate, List.getLast?_concat]

/-- Witness for C10: an `overflow`-labelled event at index 0 consumes
reference index 0 and advances the cursor by 1. -/
theorem C10_witness :
    (fixStep [(0, "overflow")] [] [] [100] [[1]] [0] [7] 0
      ⟨[], [], [], 0, none, none⟩).2 = false ∧
    (fixStep [(0, "overflow")] [] [] [100] [[1]] [0] [7] 0
      ⟨[], [], [], 0, none, none⟩).1.d_e_index = 1 ∧
    (fixStep [(0, "overflow")] [] [] [100] [[1]] [0] [7] 0
      ⟨[], [], [], 0, none, none⟩).1.corrected_ts = [7] := by
  have h := (C10_unknown_label_handled_as_normal [(0, "overflow")] [] [] [100]
    [[1]] [0] [7] 0 ⟨[], [], [], 0, none, none⟩ "overflow" (by decide)
    (by decide) (by decide) (by decide)).2 7 (by decide)
  exact ⟨h.1, h.2.1, h.2.2.1⟩

/-! ## Fixer: claim C2 (reconciliation conservation) -/

lemma fixStep_merge_counts (anoms hm : List (Nat × String)) (oinfo : List (Bool × Int))
    (ats : List Int) (pats : List (List Int)) (lts : List Int) (mea : List Int)
    (i : Nat) (st st2 : FixState)
    (hl : lookupLast anoms i = some "merge")
    (hok : fixStep anoms hm oinfo ats pats lts mea i st = (st2, false)) :
    st2.records.length = st.records.length + 1 ∧
    st2.corrected_ts.length = st.corrected_ts.length + 1 ∧
    st2.d_e_index = st.d_e_index + 2 := by
  simp only [fixStep, hl] at hok
  split at hok
  · rename_i heq
    simp at heq
  · rename_i heq
    simp at heq
  · split at hok
    · simp at hok
    · simp only [Prod.mk.injEq] at hok
      rw [← hok.1]
      simp

lemma fixStep_split2_counts (anoms hm : List (Nat × String)) (oinfo : List (Bool × Int))
    (ats : List Int) (pats : List (List Int)) (lts : List Int) (mea : List Int)
    (i : Nat) (st st2 : FixState)
    (hl : lookupLast anoms i = some "split_2")
    (hok : fixStep anoms hm oinfo ats pats lts mea i st = (st2, false)) :
    st2.records.length = st.records.length + 2 ∧
    st2.corrected_ts.length = st.corrected_ts.length + 2 ∧
    st2.d_e_index = st.d_e_index + 1 := by
  simp only [fixStep, hl] at hok
  split at hok
  · simp at hok
  · split at hok
    · simp at hok
    · split at hok
      · simp at hok
      · split at hok
        · simp at hok
        · simp only [Prod.mk.injEq] at hok
          rw [← hok.1]
          refine ⟨by simp, by simp, by simp⟩

lemma fixStep_split3_counts (anoms hm : List (Nat × String)) (oinfo : List (Bool × Int))
    (ats : List Int) (pats : List (List Int)) (lts : List Int) (mea : List Int)
    (i : Nat) (st st2 : FixState)
    (hl : lookupLast anoms i = some "split_3")
    (hok : fixStep anoms hm oinfo ats pats lts mea i st = (st2, false)) :
    st2.records.length = st.records.length + 3 ∧
    st2.corrected_ts.length = st.corrected_ts.length + 3 ∧
    st2.d_e_index = st.d_e_index + 1 := by
  simp only [fixStep, hl] at hok
  split at hok
  · simp at hok
  · split at hok
    · simp at hok
    · split at hok
      · simp at hok
      · split at hok
        · simp at hok
        · split at hok
          · simp at hok
          · split at hok
            · simp at hok
            · split at hok
              · simp at hok
              · simp only [Prod.mk.injEq] at hok
                rw [← hok.1]
                refine ⟨by simp, by simp, by simp⟩

/-- With no anomalies every iteration consumes exactly the reference index
at the cursor and emits exactly one record. -/
lemma fixLoop_no_anomalies (hm : List (Nat × String)) (oinfo : List (Bool × Int))
    (ats : List Int) (pats : List (List Int)) (lts : List Int) (mea : List Int) :
    ∀ (r i : Nat) (st0 st : FixState),
      fixLoop [] hm oinfo ats pats lts mea i st0 r = (st, none) →
      st.corrected_ts.length = st0.corrected_ts.length + r ∧
      st.d_e_index = st0.d_e_index + r ∧
      st.records.map (fun rec => rec.mea_indices_used) =
        st0.records.map (fun rec => rec.mea_indices_used) ++
          (List.range' st0.d_e_index r).map (fun j => [Int.ofNat j]) := by
  intro r
  induction r with
  | zero =>
    intro i st0 st h
    have h2 : st0 = st := congrArg Prod.fst h
    rw [← h2]
    simp
  | succ r ih =>
    intro i st0 st h
    have hl : lookupLast ([] : List (Nat × String)) i = none := rfl
    have hunf : fixLoop [] hm oinfo ats pats lts mea i st0 (r + 1) =
        match fixStep [] hm oinfo ats pats lts mea i st0 with
        | (st2, false) => fixLoop [] hm oinfo ats pats lts mea (i + 1) st2 r
        | (st2, true) => (st2, some i) := rfl
    rw [hunf] at h
    simp only [fixStep, hl] at h
    split at h
    case _ st2 heq =>
      split at heq
      · simp at heq
      · simp only [Prod.mk.injEq] at heq
        rw [← heq.1] at h
        have hres := ih (i + 1) _ st h
        refine ⟨?_, ?_, ?_⟩
        · have h1 := hres.1
          simp at h1
          omega
        · have h1 := hres.2.1
          simp at h1
          omega
        · have h1 := hres.2.2
          rw [h1, List.range'_succ]
          simp [List.append_assoc]
    case _ st2 heq =>
      simp at h

/-- C2: with zero anomalies the reconciliation loop emits one corrected
timestamp per Arduino event, consuming reference indices `0, 1, 2, ...` in
order (one per event), so corrected count = event count = consumed
reference count; a merge event emits 1 record and advances the reference
cursor by 2; a split_2 event emits 2 records and advances the cursor by 1;
a split_3 event emits 3 records and advances the cursor by 1. -/
theorem C2_reconciliation_conservation :
    (∀ (hm : List (Nat × String)) (oinfo : List (Bool × Int)) (ats : List Int)
      (pats : List (List Int)) (lts : List Int) (mea : List Int) (st : FixState),
      fixLoop [] hm oinfo ats pats lts mea 0 ⟨[], [], [], 0, none, none⟩
          ats.length = (st, none) →
      st.corrected_ts.length = ats.length ∧ st.d_e_index = ats.length ∧
      st.records.map (fun rec => rec.mea_indices_used) =
        (List.range ats.length).map (fun j => [Int.ofNat j])) ∧
    (∀ anoms hm oinfo ats pats lts mea i st st2,
      lookupLast anoms i = some "merge" →
      fixStep anoms hm oinfo ats pats lts mea i st = (st2, false) →
      st2.records.length = st.records.length + 1 ∧
      st2.corrected_ts.length = st.corrected_ts.length + 1 ∧
      st2.d_e_index = st.d_e_index + 2) ∧
    (∀ anoms hm oinfo ats pats lts mea i st st2,
      lookupLast anoms i = some "split_2" →
      fixStep anoms hm oinfo ats pats lts mea i st = (st2, false) →
      st2.records.length = st.records.length + 2 ∧
      st2.corrected_ts.length = st.corrected_ts.length + 2 ∧
      st2.d_e_index = st.d_e_index + 1) ∧
    (∀ anoms hm oinfo ats pats lts mea i st st2,
      lookupLast anoms i = some "split_3" →
      fixStep anoms hm oinfo ats pats lts mea i st = (st2, false) →
      st2.records.length = st.records.length + 3 ∧
      st2.corrected_ts.length = st.corrected_ts.length + 3 ∧
      st2.d_e_index = st.d_e_index + 1) := by
  refine ⟨?_, fixStep_merge_counts, fixStep_split2_counts, fixStep_split3_counts⟩
  intro hm oinfo ats pats lts mea st h
  have hres := fixLoop_no_anomalies hm oinfo ats pats lts mea ats.length 0
    ⟨[], [], [], 0, none, none⟩ st h
  refine ⟨by simpa using hres.1, by simpa using hres.2.1, ?_⟩
  rw [hres.2.2]
  simp [List.range_eq_range']

/-- Witness for C2 at concrete runs: a three-event zero-anomaly stream, and
one merge, one split_2 and one split_3 event. -/
theorem C2_witness :
    ((fixLoop [] [] [] [0, 10, 20] [[0], [1], [2]] [0, 0, 0] [100, 200, 300] 0
        ⟨[], [], [], 0, none, none⟩ 3).1.corrected_ts.length = 3 ∧
      (fixLoop [] [] [] [0, 10, 20] [[0], [1], [2]] [0, 0, 0] [100, 200, 300] 0
        ⟨[], [], [], 0, none, none⟩ 3).1.d_e_index = 3) ∧
    ((fixStep [(0, "merge")] [] [] [0] [[0]] [0] [100, 200] 0
        ⟨[], [], [], 0, none, none⟩).1.records.length = 1 ∧
      (fixStep [(0, "merge")] [] [] [0] [[0]] [0] [100, 200] 0
        ⟨[], [], [], 0, none, none⟩).1.d_e_index = 2) ∧
    ((fixStep [(0, "split_2")] [] [] [100, 110] [[1], [2]] [0, 0] [500, 600] 0
        ⟨[], [], [], 0, none, none⟩).1.records.length = 2 ∧
      (fixStep [(0, "split_2")] [] [] [100, 110] [[1], [2]] [0, 0] [500, 600] 0
        ⟨[], [], [], 0, none, none⟩).1.d_e_index = 1) ∧
    ((fixStep [(0, "split_3")] [] [] [0, 10, 20] [[0], [1], [2]] [0, 0, 0]
        [100, 200] 0 ⟨[], [], [], 0, none, none⟩).1.records.length = 3 ∧
      (fixStep [(0, "split_3")] [] [] [0, 10, 20] [[0], [1], [2]] [0, 0, 0]
        [100, 200] 0 ⟨[], [], [], 0, none, none⟩).1.d_e_index = 1) := by
  have e1 : fixLoop [] [] [] [0, 10, 20] [[0], [1], [2]] [0, 0, 0] [100, 200, 300] 0
      ⟨[], [], [], 0, none, none⟩ 3 =
      ((fixLoop [] [] [] [0, 10, 20] [[0], [1], [2]] [0, 0, 0] [100, 200, 300] 0
        ⟨[], [], [], 0, none, none⟩ 3).1, none) := by
    rw [show (none : Option Nat) =
      (fixLoop [] [] [] [0, 10, 20] [[0], [1], [2]] [0, 0, 0] [100, 200, 300] 0
        ⟨[], [], [], 0, none, none⟩ 3).2 from by decide]
  have e2 : fixStep [(0, "merge")] [] [] [0] [[0]] [0] [100, 200] 0
      ⟨[], [], [], 0, none, none⟩ =
      ((fixStep [(0, "merge")] [] [] [0] [[0]] [0] [100, 200] 0
        ⟨[], [], [], 0, none, none⟩).1, false) := by
    rw [show false = (fixStep [(0, "merge")] [] [] [0] [[0]] [0] [100, 200] 0
      ⟨[], [], [], 0, none, none⟩).2 from by decide]
  have e3 : fixStep [(0, "split_2")] [] [] [100, 110] [[1], [2]] [0, 0] [500, 600] 0
      ⟨[], [], [], 0, none, none⟩ =
      ((fixStep [(0, "split_2")] [] [] [100, 110] [[1], [2]] [0, 0] [500, 600] 0
        ⟨[], [], [], 0, none, none⟩).1, false) := by
    rw [show false = (fixStep [(0, "split_2")] [] [] [100, 110] [[1], [2]] [0, 0]
      [500, 600] 0 ⟨[], [], [], 0, none, none⟩).2 from by decide]
  have e4 : fixStep [(0, "split_3")] [] [] [0, 10, 20] [[0], [1], [2]] [0, 0, 0]
      [100, 200] 0 ⟨[], [], [], 0, none, none⟩ =
      ((fixStep [(0, "split_3")] [] [] [0, 10, 20] [[0], [1], [2]] [0, 0, 0]
        [100, 200] 0 ⟨[], [], [], 0, none, none⟩).1, false) := by
    rw [show false = (fixStep [(0, "split_3")] [] [] [0, 10, 20] [[0], [1], [2]]
      [0, 0, 0] [100, 200] 0 ⟨[], [], [], 0, none, none⟩).2 from by decide]
  have h1 := C2_reconciliation_conservation.1 [] [] [0, 10, 20] [[0], [1], [2]]
    [0, 0, 0] [100, 200, 300] _ e1
  have h2 := C2_reconciliation_conservation.2.1 [(0, "merge")] [] [] [0] [[0]] [0]
    [100, 200] 0 ⟨[], [], [], 0, none, none⟩ _ (by decide) e2
  have h3 := C2_reconciliation_conservation.2.2.1 [(0, "split_2")] [] []
    [100, 110] [[1], [2]] [0, 0] [500, 600] 0 ⟨[], [], [], 0, none, none⟩ _
    (by decide) e3
  have h4 := C2_reconciliation_conservation.2.2.2 [(0, "split_3")] [] []
    [0, 10, 20] [[0], [1], [2]] [0, 0, 0] [100, 200] 0
    ⟨[], [], [], 0, none, none⟩ _ (by decide) e4
  exact ⟨⟨h1.1, h1.2.1⟩, ⟨by simpa using h2.1, by simpa using h2.2.2⟩,
    ⟨by simpa using h3.1, by simpa using h3.2.2⟩,
    ⟨by simpa using h4.1, by simpa using h4.2.2⟩⟩

/-! ## Fixer: claim C7 (merge/split boundary handling) -/

/-- C7 counterexample: a `split_2` at index 0 with the reference cursor at 0
has no valid predecessor (`i = 0` and cursor 0), yet `fix` completes with
`success = true` and emits a corrected timestamp (`780`) computed from the
*last* elements of the arrays via Python negative indexing
(`mea_ts[-1] + (arduino_ts[0] - arduino_ts[-1]) = 800 + (100 - 120)`) — no
error is raised for the record. -/
theorem C7_counterexample :
    (fix [(0, "split_2")] [100, 110, 120] [[1], [2], [3]] [0, 0, 0]
        [500, 600, 700, 800] "o.npz" "l.csv" []).map
      (fun o => (o.success, o.records.head?.map (fun r => r.corrected_timestamp))) =
      some (true, some (some 780)) := by
  decide

lemma pyGet_none_of_ge {α : Type} (l : List α) (k : Int) (d : α)
    (h0 : 0 ≤ k) (h : (l.length : Int) ≤ k) : pyGet l k d = none := by
  unfold pyGet pyIdx
  rw [if_pos h0, if_neg (by omega)]
  rfl

/-- C7 amended: a `split_2`/`split_3` event whose required successor is out
of range of the Arduino arrays (`i+1`, resp. `i+1`/`i+2`, at or past the end
of the pattern list / timestamp array) makes the reconciliation step raise,
so the record is handled by the error path rather than fixed; a *missing
predecessor* (`i = 0` or reference cursor 0), by contrast, does not raise —
negative indexing silently reads the last array element (see the
counterexample). -/
theorem C7_out_of_range_successor_raises :
    ∀ (anoms hm : List (Nat × String)) (oinfo : List (Bool × Int))
      (ats : List Int) (pats : List (List Int)) (lts : List Int) (mea : List Int)
      (i : Nat) (st : FixState),
      (lookupLast anoms i = some "split_2" → pats.length ≤ i + 1 →
        (fixStep anoms hm oinfo ats pats lts mea i st).2 = true) ∧
      (lookupLast anoms i = some "split_3" → pats.length ≤ i + 2 →
        (fixStep anoms hm oinfo ats pats lts mea i st).2 = true) ∧
      (lookupLast anoms i = some "split_3" → ats.length ≤ i + 1 →
        (fixStep anoms hm oinfo ats pats lts mea i st).2 = true) := by
  intro anoms hm oinfo ats pats lts mea i st
  refine ⟨?_, ?_, ?_⟩
  · intro h hlen
    have hnone : pyGet pats ((i : Int) + 1) ([] : List Int) = none :=
      pyGet_none_of_ge _ _ _ (by omega) (by omega)
    simp only [fixStep, h]
    split
    · rfl
    · split
      · rfl
      · split
        · rfl
        · split
          · rfl
          · rename_i heq
            rw [hnone] at heq
            simp at heq
  · intro h hlen
    have hnone : pyGet pats ((i : Int) + 2) ([] : List Int) = none :=
      pyGet_none_of_ge _ _ _ (by omega) (by omega)
    simp only [fixStep, h]
    split
    · rfl
    · split
      · rfl
      · split
        · rfl
        · split
          · rfl
          · split
            · rfl
            · split
              · rfl
              · split
                · rfl
                · rename_i heq
                  rw [hnone] at heq
                  simp at heq
  · intro h hlen
    have hnone : pyGet ats ((i : Int) + 1) (0 : Int) = none :=
      pyGet_none_of_ge _ _ _ (by omega) (by omega)
    simp only [fixStep, h]
    split
    · rfl
    · split
      · rfl
      · split
        · rfl
        · rename_i heq
          rw [hnone] at heq
          simp at heq

/-- Witness for C7: a `split_2` whose successor index 2 is past the end of
the two-element pattern list raises. -/
theorem C7_witness :
    (fixStep [(1, "split_2")] [] [] [0, 10] [[1], [2]] [0, 0] [100, 200] 1
      ⟨[], [], [], 0, none, none⟩).2 = true := by
  exact (C7_out_of_range_successor_raises [(1, "split_2")] [] [] [0, 10]
    [[1], [2]] [0, 0] [100, 200] 1 ⟨[], [], [], 0, none, none⟩).1
    (by decide) (by decide)

/-! ## Fixer: claim C6 (partial-failure policy) -/

lemma overflowGo_length : ∀ (ts : List Int) (prev : Option Int) (off : Int),
    (overflowGo prev off ts).1.length = ts.length ∧
    (overflowGo prev off ts).2.length = ts.length := by
  intro ts
  induction ts with
  | nil => intro prev off; simp [overflowGo]
  | cons t rest ih =>
    intro prev off
    simp only [overflowGo, List.length_cons]
    constructor
    · rw [(ih _ _).1]
    · rw [(ih _ _).2]

lemma pyGet_of_lt {α : Type} (l : List α) (j : Nat) (d : α) (h : j < l.length) :
    pyGet l (Int.ofNat j) d = some (l.getD j d) := by
  unfold pyGet pyIdx
  rw [if_pos (show (0 : Int) ≤ Int.ofNat j from Int.ofNat_nonneg j)]
  rw [if_pos (show (Int.ofNat j).toNat < l.length from by simpa using h)]
  rfl

lemma placeholderRow_fields (hm : List (Nat × String)) (oinfo : List (Bool × Int))
    (ats lts : List Int) (j : Nat) (h : j < lts.length) :
    ∃ rec, placeholderRow hm oinfo ats lts j = some rec ∧
      rec.anomaly_type = "not_fixed_due_to_error" ∧
      rec.corrected_timestamp = none ∧ rec.mea_indices_used = [] ∧
      rec.skip_count = none ∧ rec.extra_inserts = none ∧
      rec.delta_original = none ∧ rec.delta_corrected = none ∧
      rec.delta_diff_change = none := by
  unfold placeholderRow
  rw [pyGet_of_lt lts j 0 h]
  exact ⟨_, rfl, rfl, rfl, rfl, rfl, rfl, rfl, rfl, rfl⟩

lemma mapM_placeholderRow (hm : List (Nat × String)) (oinfo : List (Bool × Int))
    (ats lts : List Int) :
    ∀ idxs : List Nat, (∀ j ∈ idxs, j < lts.length) →
      ∃ ph, idxs.mapM (placeholderRow hm oinfo ats lts) = some ph ∧
        ph.length = idxs.length ∧
        ∀ rec ∈ ph, rec.anomaly_type = "not_fixed_due_to_error" ∧
          rec.corrected_timestamp = none ∧ rec.mea_indices_used = [] ∧
          rec.skip_count = none ∧ rec.extra_inserts = none ∧
          rec.delta_original = none ∧ rec.delta_corrected = none ∧
          rec.delta_diff_change = none := by
  intro idxs
  induction idxs with
  | nil => intro _; exact ⟨[], rfl, rfl, by simp⟩
  | cons j rest ih =>
    intro hall
    obtain ⟨rec, hrow, hfields⟩ := placeholderRow_fields hm oinfo ats lts j
      (hall j (List.mem_cons_self j rest))
    obtain ⟨ph, hph, hlen, hmem⟩ := ih (fun x hx => hall x (List.mem_cons_of_mem j hx))
    refine ⟨rec :: ph, ?_, by simp [hlen], ?_⟩
    · rw [List.mapM_cons, hrow, hph]
      rfl
    · intro r hr
      rcases List.mem_cons.mp hr with h | h
      · rw [h]; exact hfields
      · exact hmem r h

lemma fixStep_records_nonsplit (anoms hm : List (Nat × String))
    (oinfo : List (Bool × Int)) (ats : List Int) (pats : List (List Int))
    (lts : List Int) (mea : List Int) (i : Nat) (st : FixState)
    (hns : ∀ s, lookupLast anoms i = some s → s ≠ "split_2" ∧ s ≠ "split_3") :
    ((fixStep anoms hm oinfo ats pats lts mea i st).2 = true →
      (fixStep anoms hm oinfo ats pats lts mea i st).1.records = st.records) ∧
    ((fixStep anoms hm oinfo ats pats lts mea i st).2 = false →
      (fixStep anoms hm oinfo ats pats lts mea i st).1.records.length =
        st.records.length + 1) := by
  cases hl : lookupLast anoms i with
  | none =>
    simp only [fixStep, hl]
    split
    · exact ⟨fun _ => rfl, by simp⟩
    · refine ⟨by simp, fun _ => by simp⟩
  | some s =>
    obtain ⟨hs2, hs3⟩ := hns s hl
    simp only [fixStep, hl]
    split
    · rename_i heq
      simp only [Option.some.injEq] at heq
      exact absurd heq hs2
    · rename_i heq
      simp only [Option.some.injEq] at heq
      exact absurd heq hs3
    · split
      · exact ⟨fun _ => rfl, by simp⟩
      · refine ⟨by simp, fun _ => by simp⟩

lemma fixLoop_raise_bound (anoms hm : List (Nat × String)) (oinfo : List (Bool × Int))
    (ats : List Int) (pats : List (List Int)) (lts : List Int) (mea : List Int) :
    ∀ (r i : Nat) (st0 st : FixState) (k : Nat),
      fixLoop anoms hm oinfo ats pats lts mea i st0 r = (st, some k) →
      i ≤ k ∧ k < i + r := by
  intro r
  induction r with
  | zero =>
    intro i st0 st k h
    have : (none : Option Nat) = some k := congrArg Prod.snd h
    cases this
  | succ r ih =>
    intro i st0 st k h
    have hunf : fixLoop anoms hm oinfo ats pats lts mea i st0 (r + 1) =
        match fixStep anoms hm oinfo ats pats lts mea i st0 with
        | (st2, false) => fixLoop anoms hm oinfo ats pats lts mea (i + 1) st2 r
        | (st2, true) => (st2, some i) := rfl
    rw [hunf] at h
    rcases hstep : fixStep anoms hm oinfo ats pats lts mea i st0 with ⟨st2, b⟩
    rw [hstep] at h
    cases b
    · have h2 : fixLoop anoms hm oinfo ats pats lts mea (i + 1) st2 r =
        (st, some k) := h
      have := ih (i + 1) st2 st k h2
      omega
    · have h2 : (st2, some i) = (st, some k) := h
      have h3 : some i = some k := congrArg Prod.snd h2
      have h4 : i = k := by injection h3
      omega

/-- Until the raising index, every completed non-split iteration appends
exactly one audit row, and the raising iteration of a non-split event
appends none. -/
lemma fixLoop_records_count (anoms hm : List (Nat × String))
    (oinfo : List (Bool × Int)) (ats : List Int) (pats : List (List Int))
    (lts : List Int) (mea : List Int) :
    ∀ (r i : Nat) (st0 st : FixState) (k : Nat),
      fixLoop anoms hm oinfo ats pats lts mea i st0 r = (st, some k) →
      (∀ j s, i ≤ j → j ≤ k → lookupLast anoms j = some s →
        s ≠ "split_2" ∧ s ≠ "split_3") →
      st.records.length = st0.records.length + (k - i) := by
  intro r
  induction r with
  | zero =>
    intro i st0 st k h
    have : (none : Option Nat) = some k := congrArg Prod.snd h
    cases this
  | succ r ih =>
    intro i st0 st k h hns
    have hunf : fixLoop anoms hm oinfo ats pats lts mea i st0 (r + 1) =
        match fixStep anoms hm oinfo ats pats lts mea i st0 with
        | (st2, false) => fixLoop anoms hm oinfo ats pats lts mea (i + 1) st2 r
        | (st2, true) => (st2, some i) := rfl
    rw [hunf] at h
    have hstep := fixStep_records_nonsplit anoms hm oinfo ats pats lts mea i st0
    rcases hres : fixStep anoms hm oinfo ats pats lts mea i st0 with ⟨st2, b⟩
    rw [hres] at h
    cases b
    · have h2 : fixLoop anoms hm oinfo ats pats lts mea (i + 1) st2 r =
        (st, some k) := h
      have hbound := fixLoop_raise_bound anoms hm oinfo ats pats lts mea r
        (i + 1) st2 st k h2
      have hrec := ih (i + 1) st2 st k h2
        (fun j s hij hjk hl => hns j s (by omega) hjk hl)
      have hone : st2.records.length = st0.records.length + 1 := by
        have := (hstep (fun s hl => hns i s (le_refl i) (by omega) hl)).2
        rw [hres] at this
        exact this rfl
      omega
    · have h2 : (st2, some i) = (st, some k) := h
      have h3 : some i = some k := congrArg Prod.snd h2
      have h4 : i = k := by injection h3
      have h5 : st2 = st := congrArg Prod.fst h2
      have hsame : st2.records = st0.records := by
        have := (hstep (fun s hl => hns i s (le_refl i) (by omega) hl)).1
        rw [hres] at this
        exact this rfl
      rw [← h5, hsame]
      omega

/-- C6 counterexample: a `split_2` at index 0 followed by reference
exhaustion at index 1 — the loop raises at `k = 1`, but the saved audit log
holds **2** fully-populated rows (the split emitted two records for index 0)
followed by `3 - 1 = 2` placeholder rows; the claim's "exactly k
fully-populated rows" predicts 1. -/
theorem C6_counterexample :
    (fixLoop [(0, "split_2")] [] (overflowScan [0, 10, 20]).2
      (overflowScan [0, 10, 20]).1 [[0], [1], [2]] [0, 0, 0] [100] 0
      ⟨[], [], [], 0, none, none⟩ 3).2 = some 1 ∧
    (fix [(0, "split_2")] [0, 10, 20] [[0], [1], [2]] [0, 0, 0] [100]
        "out.npz" "log.csv" []).map
      (fun o => (o.success,
        (o.records.filter
          (fun rec => rec.anomaly_type != "not_fixed_due_to_error")).length,
        (o.records.filter
          (fun rec => rec.anomaly_type == "not_fixed_due_to_error")).length,
        o.npz_path, o.csv_path)) =
      some (false, 2, 2, "out_partial.npz", "log_partial.csv") := by
  decide

/-- C6 amended: when the reconciliation loop raises at original index `k`,
`fix` keeps every audit row emitted before the failure (one per emitted
record — exactly `k` rows when no split_2/split_3 label occurs at indices
`≤ k`, more when splits emitted extra rows), appends exactly
`len(arduino_ts) − k` placeholder rows marked `not_fixed_due_to_error` with
null corrected fields, preserves the corrected timestamps computed so far,
and writes to the `_partial`-suffixed artifact paths. -/
theorem C6_partial_failure_policy :
    ∀ (anoms : List (Nat × String)) (pairs : List ((Nat × Nat) × (Nat × Nat)))
      (ats0 : List Int) (pats : List (List Int)) (lts : List Int) (mea : List Int)
      (npz csv : String) (st : FixState) (k : Nat) (out : FixOutput),
      pats.length = ats0.length → lts.length = ats0.length →
      fixLoop anoms (handshakeAssignments pairs) (overflowScan ats0).2
        (overflowScan ats0).1 pats lts mea 0 ⟨[], [], [], 0, none, none⟩
        (min (overflowScan ats0).1.length (min pats.length lts.length)) =
        (st, some k) →
      fix anoms ats0 pats lts mea npz csv pairs = some out →
      out.success = false ∧
      out.npz_path = splitextRoot npz ++ "_partial.npz" ∧
      out.csv_path = splitextRoot csv ++ "_partial.csv" ∧
      out.corrected_ts = st.corrected_ts ∧
      out.records.take st.records.length = st.records ∧
      (out.records.drop st.records.length).length = ats0.length - k ∧
      (∀ rec ∈ out.records.drop st.records.length,
        rec.anomaly_type = "not_fixed_due_to_error" ∧
        rec.corrected_timestamp = none ∧ rec.mea_indices_used = [] ∧
        rec.skip_count = none ∧ rec.extra_inserts = none ∧
        rec.delta_original = none ∧ rec.delta_corrected = none) ∧
      ((∀ j s, j ≤ k → lookupLast anoms j = some s →
          s ≠ "split_2" ∧ s ≠ "split_3") →
        st.records.length = k) := by
  intro anoms pairs ats0 pats lts mea npz csv st k out hp hlts hloop hfix
  have hatslen : (overflowScan ats0).1.length = ats0.length :=
    (overflowGo_length ats0 none 0).1
  have hkbound := fixLoop_raise_bound anoms (handshakeAssignments pairs)
    (overflowScan ats0).2 (overflowScan ats0).1 pats lts mea _ 0
    ⟨[], [], [], 0, none, none⟩ st k hloop
  have hk : k ≤ ats0.length := by
    rw [hatslen, hp, hlts] at hkbound
    omega
  obtain ⟨ph, hph, hphlen, hphmem⟩ := mapM_placeholderRow
    (handshakeAssignments pairs) (overflowScan ats0).2 (overflowScan ats0).1 lts
    (List.range' k ((overflowScan ats0).1.length - k))
    (by
      intro j hj
      rw [List.mem_range'_1] at hj
      rw [hatslen] at hj
      omega)
  have hbp : buildPlaceholders (handshakeAssignments pairs)
      (overflowScan ats0).2 (overflowScan ats0).1 lts k = some ph := hph
  rw [fix] at hfix
  rw [hloop] at hfix
  simp only [hbp, Option.map_some', Option.some.injEq] at hfix
  subst hfix
  refine ⟨rfl, rfl, rfl, rfl, ?_, ?_, ?_, ?_⟩
  · exact List.take_left st.records ph
  · rw [List.drop_left, hphlen, List.length_range', hatslen]
  · rw [List.drop_left]
    exact fun rec hr => ⟨(hphmem rec hr).1, (hphmem rec hr).2.1,
      (hphmem rec hr).2.2.1, (hphmem rec hr).2.2.2.1, (hphmem rec hr).2.2.2.2.1,
      (hphmem rec hr).2.2.2.2.2.1, (hphmem rec hr).2.2.2.2.2.2.1⟩
  · intro hns
    have := fixLoop_records_count anoms (handshakeAssignments pairs)
      (overflowScan ats0).2 (overflowScan ats0).1 pats lts mea _ 0
      ⟨[], [], [], 0, none, none⟩ st k hloop
      (fun j s _ hjk hl => hns j s hjk hl)
    simpa using this

/-- Witness for C6 at the counterexample input. -/
theorem C6_witness :
    ((fix [(0, "split_2")] [0, 10, 20] [[0], [1], [2]] [0, 0, 0] [100]
        "out.npz" "log.csv" []).map FixOutput.success) = some false ∧
    ((fix [(0, "split_2")] [0, 10, 20] [[0], [1], [2]] [0, 0, 0] [100]
        "out.npz" "log.csv" []).map FixOutput.npz_path) =
      some "out_partial.npz" := by
  have hs : (fix [(0, "split_2")] [0, 10, 20] [[0], [1], [2]] [0, 0, 0] [100]
      "out.npz" "log.csv" []).isSome := by decide
  have hfix := (Option.some_get hs).symm
  have hloop : fixLoop [(0, "split_2")] (handshakeAssignments [])
      (overflowScan [0, 10, 20]).2 (overflowScan [0, 10, 20]).1
      [[0], [1], [2]] [0, 0, 0] [100] 0 ⟨[], [], [], 0, none, none⟩
      (min (overflowScan [0, 10, 20]).1.length (min 3 3)) =
      ((fixLoop [(0, "split_2")] (handshakeAssignments [])
        (overflowScan [0, 10, 20]).2 (overflowScan [0, 10, 20]).1
        [[0], [1], [2]] [0, 0, 0] [100] 0 ⟨[], [], [], 0, none, none⟩
        (min (overflowScan [0, 10, 20]).1.length (min 3 3))).1, some 1) := by
    decide
  have h := C6_partial_failure_policy [(0, "split_2")] [] [0, 10, 20]
    [[0], [1], [2]] [0, 0, 0] [100] "out.npz" "log.csv" _ 1 _
    (by decide) (by decide) hloop hfix
  constructor
  · rw [hfix, Option.map_some', h.1]
  · rw [hfix, Option.map_some', h.2.1]
    rfl

/-! ## Handshake detector: claim C4 (covered-index discipline) -/

/-- The interval windows of two matches share no index. -/
def winDisjoint (a b : (Nat × Nat) × String) : Prop :=
  ∀ j, a.1.1 ≤ j → j < a.1.2 → ¬(b.1.1 ≤ j ∧ j < b.1.2)

/-- A later match's starting offset does not lie inside an earlier match's
window. -/
def beginFree (a b : (Nat × Nat) × String) : Prop :=
  ¬(a.1.1 ≤ b.1.1 ∧ b.1.1 < a.1.2)

lemma not_mem_of_windowHits_false {cov : List Nat} {i L j : Nat}
    (h : windowHits cov i L = false) (h1 : i ≤ j) (h2 : j < i + L) : j ∉ cov := by
  intro hj
  have ht : windowHits cov i L = true := by
    rw [windowHits, List.any_eq_true]
    refine ⟨j, ?_, ?_⟩
    · rw [List.mem_range'_1]; omega
    · simpa using hj
  rw [h] at ht
  cases ht

lemma scanStopGo_inv (diffs : List Int) (tol : Int) (name : String) (seq : List Int) :
    ∀ (offs : List Nat) (ms : List ((Nat × Nat) × String)) (cov : List Nat),
      (∀ m ∈ ms, ∀ j, m.1.1 ≤ j → j < m.1.2 → j ∈ cov) →
      List.Pairwise winDisjoint ms →
      (∀ m ∈ (scanStopGo diffs tol name seq offs ms cov).1, ∀ j,
        m.1.1 ≤ j → j < m.1.2 → j ∈ (scanStopGo diffs tol name seq offs ms cov).2) ∧
      List.Pairwise winDisjoint (scanStopGo diffs tol name seq offs ms cov).1 ∧
      (∀ x ∈ cov, x ∈ (scanStopGo diffs tol name seq offs ms cov).2) := by
  intro offs
  induction offs with
  | nil => intro ms cov hcovers hpw; exact ⟨hcovers, hpw, fun x hx => hx⟩
  | cons i rest ih =>
    intro ms cov hcovers hpw
    by_cases hwh : windowHits cov i seq.length
    · have hunf : scanStopGo diffs tol name seq (i :: rest) ms cov =
          scanStopGo diffs tol name seq rest ms cov := by
        rw [scanStopGo, if_pos hwh]
      rw [hunf]
      exact ih ms cov hcovers hpw
    · rw [Bool.not_eq_true] at hwh
      by_cases hma : matchesAt diffs tol seq i
      · have hunf : scanStopGo diffs tol name seq (i :: rest) ms cov =
            scanStopGo diffs tol name seq rest
              (ms ++ [((i, i + seq.length), name)])
              (cov ++ List.range' i seq.length) := by
          rw [scanStopGo, if_neg (by rw [hwh]; simp), if_pos hma]
        rw [hunf]
        have hcov2 : ∀ m ∈ ms ++ [((i, i + seq.length), name)], ∀ j,
            m.1.1 ≤ j → j < m.1.2 → j ∈ cov ++ List.range' i seq.length := by
          intro m hm j hj1 hj2
          rcases List.mem_append.mp hm with h | h
          · exact List.mem_append_left _ (hcovers m h j hj1 hj2)
          · have hm2 : m = ((i, i + seq.length), name) := by simpa using h
            rw [hm2] at hj1 hj2
            refine List.mem_append_right _ ?_
            rw [List.mem_range'_1]
            exact ⟨hj1, hj2⟩
        have hpw2 : List.Pairwise winDisjoint
            (ms ++ [((i, i + seq.length), name)]) := by
          rw [List.pairwise_append]
          refine ⟨hpw, by simp [List.Pairwise], ?_⟩
          intro a ha b hb
          have hb2 : b = ((i, i + seq.length), name) := by simpa using hb
          rw [hb2, winDisjoint]
          intro j hj1 hj2 hbad
          exact not_mem_of_windowHits_false hwh hbad.1 hbad.2
            (hcovers a ha j hj1 hj2)
        have htail := ih _ _ hcov2 hpw2
        exact ⟨htail.1, htail.2.1,
          fun x hx => htail.2.2 x (List.mem_append_left _ hx)⟩
      · have hunf : scanStopGo diffs tol name seq (i :: rest) ms cov =
            scanStopGo diffs tol name seq rest ms cov := by
          rw [scanStopGo, if_neg (by rw [hwh]; simp), if_neg hma]
        rw [hunf]
        exact ih ms cov hcovers hpw

lemma scanStop_fold_inv (diffs : List Int) (tol : Int) :
    ∀ (pats : List (String × List Int)) (ms : List ((Nat × Nat) × String))
      (cov : List Nat),
      (∀ m ∈ ms, ∀ j, m.1.1 ≤ j → j < m.1.2 → j ∈ cov) →
      List.Pairwise winDisjoint ms →
      (∀ m ∈ (pats.foldl (fun st pat =>
          scanStopGo diffs tol pat.1 pat.2 (offsetsFor diffs pat.2.length) st.1 st.2)
          (ms, cov)).1, ∀ j, m.1.1 ≤ j → j < m.1.2 →
        j ∈ (pats.foldl (fun st pat =>
          scanStopGo diffs tol pat.1 pat.2 (offsetsFor diffs pat.2.length) st.1 st.2)
          (ms, cov)).2) ∧
      List.Pairwise winDisjoint (pats.foldl (fun st pat =>
        scanStopGo diffs tol pat.1 pat.2 (offsetsFor diffs pat.2.length) st.1 st.2)
        (ms, cov)).1 := by
  intro pats
  induction pats with
  | nil => intro ms cov h1 h2; exact ⟨h1, h2⟩
  | cons pat rest ih =>
    intro ms cov h1 h2
    have hgo := scanStopGo_inv diffs tol pat.1 pat.2
      (offsetsFor diffs pat.2.length) ms cov h1 h2
    simpa using ih (scanStopGo diffs tol pat.1 pat.2
        (offsetsFor diffs pat.2.length) ms cov).1
      (scanStopGo diffs tol pat.1 pat.2 (offsetsFor diffs pat.2.length) ms cov).2
      hgo.1 hgo.2.1

/-- Every stop match's window is inside the final stop covered set, and the
stop matches are pairwise disjoint. -/
lemma scanStopTable_inv (diffs : List Int) (tol : Int)
    (table : List (String × List Int)) :
    (∀ m ∈ (scanStopTable diffs tol table).1, ∀ j, m.1.1 ≤ j → j < m.1.2 →
      j ∈ (scanStopTable diffs tol table).2) ∧
    List.Pairwise winDisjoint (scanStopTable diffs tol table).1 := by
  have := scanStop_fold_inv diffs tol (sortByLenDesc table) [] []
    (by simp) (by simp)
  exact ⟨this.1, this.2⟩

lemma scanStartGo_inv (diffs : List Int) (tol : Int) (name : String)
    (seq : List Int) (covStop : List Nat) :
    ∀ (offs : List Nat) (ms : List ((Nat × Nat) × String)) (cov : List Nat),
      (∀ m ∈ ms, ∀ j, m.1.1 ≤ j → j < m.1.2 → j ∈ cov) →
      List.Pairwise beginFree ms →
      (∀ m ∈ ms, ∀ j, m.1.1 ≤ j → j < m.1.2 → j ∉ covStop) →
      (∀ m ∈ (scanStartGo diffs tol name seq covStop offs ms cov).1, ∀ j,
        m.1.1 ≤ j → j < m.1.2 →
        j ∈ (scanStartGo diffs tol name seq covStop offs ms cov).2) ∧
      List.Pairwise beginFree (scanStartGo diffs tol name seq covStop offs ms cov).1 ∧
      (∀ m ∈ (scanStartGo diffs tol name seq covStop offs ms cov).1, ∀ j,
        m.1.1 ≤ j → j < m.1.2 → j ∉ covStop) := by
  intro offs
  induction offs with
  | nil => intro ms cov h1 h2 h3; exact ⟨h1, h2, h3⟩
  | cons i rest ih =>
    intro ms cov h1 h2 h3
    by_cases hci : cov.contains i
    · have hunf : scanStartGo diffs tol name seq covStop (i :: rest) ms cov =
          scanStartGo diffs tol name seq covStop rest ms cov := by
        rw [scanStartGo, if_pos hci]
      rw [hunf]
      exact ih ms cov h1 h2 h3
    · rw [Bool.not_eq_true] at hci
      by_cases hwh : windowHits covStop i seq.length
      · have hunf : scanStartGo diffs tol name seq covStop (i :: rest) ms cov =
            scanStartGo diffs tol name seq covStop rest ms cov := by
          rw [scanStartGo, if_neg (by rw [hci]; simp), if_pos hwh]
        rw [hunf]
        exact ih ms cov h1 h2 h3
      · rw [Bool.not_eq_true] at hwh
        by_cases hma : matchesAt diffs tol seq i
        · have hunf : scanStartGo diffs tol name seq covStop (i :: rest) ms cov =
              scanStartGo diffs tol name seq covStop rest
                (ms ++ [((i, i + seq.length), name)])
                (cov ++ List.range' i seq.length) := by
            rw [scanStartGo, if_neg (by rw [hci]; simp), if_neg (by rw [hwh]; simp),
              if_pos hma]
          rw [hunf]
          have hcov2 : ∀ m ∈ ms ++ [((i, i + seq.length), name)], ∀ j,
              m.1.1 ≤ j → j < m.1.2 → j ∈ cov ++ List.range' i seq.length := by
            intro m hm j hj1 hj2
            rcases List.mem_append.mp hm with h | h
            · exact List.mem_append_left _ (h1 m h j hj1 hj2)
            · have hm2 : m = ((i, i + seq.length), name) := by simpa using h
              rw [hm2] at hj1 hj2
              refine List.mem_append_right _ ?_
              rw [List.mem_range'_1]
              exact ⟨hj1, hj2⟩
          have hpw2 : List.Pairwise beginFree
              (ms ++ [((i, i + seq.length), name)]) := by
            rw [List.pairwise_append]
            refine ⟨h2, by simp [List.Pairwise], ?_⟩
            intro a ha b hb
            have hb2 : b = ((i, i + seq.length), name) := by simpa using hb
            rw [hb2, beginFree]
            intro hbad
            have hmem : i ∈ cov := h1 a ha i hbad.1 hbad.2
            have hcontains : cov.contains i = true := by simpa using hmem
            rw [hci] at hcontains
            cases hcontains
          have hstop2 : ∀ m ∈ ms ++ [((i, i + seq.length), name)], ∀ j,
              m.1.1 ≤ j → j < m.1.2 → j ∉ covStop := by
            intro m hm j hj1 hj2
            rcases List.mem_append.mp hm with h | h
            · exact h3 m h j hj1 hj2
            · have hm2 : m = ((i, i + seq.length), name) := by simpa using h
              rw [hm2] at hj1 hj2
              exact not_mem_of_windowHits_false hwh hj1 hj2
          exact ih _ _ hcov2 hpw2 hstop2
        · have hunf : scanStartGo diffs tol name seq covStop (i :: rest) ms cov =
              scanStartGo diffs tol name seq covStop rest ms cov := by
            rw [scanStartGo, if_neg (by rw [hci]; simp), if_neg (by rw [hwh]; simp),
              if_neg hma]
          rw [hunf]
          exact ih ms cov h1 h2 h3

lemma scanStart_fold_inv (diffs : List Int) (tol : Int) (covStop : List Nat) :
    ∀ (pats : List (String × List Int)) (ms : List ((Nat × Nat) × String))
      (cov : List Nat),
      (∀ m ∈ ms, ∀ j, m.1.1 ≤ j → j < m.1.2 → j ∈ cov) →
      List.Pairwise beginFree ms →
      (∀ m ∈ ms, ∀ j, m.1.1 ≤ j → j < m.1.2 → j ∉ covStop) →
      List.Pairwise beginFree (pats.foldl (fun st pat =>
        scanStartGo diffs tol pat.1 pat.2 covStop (offsetsFor diffs pat.2.length)
          st.1 st.2) (ms, cov)).1 ∧
      (∀ m ∈ (pats.foldl (fun st pat =>
        scanStartGo diffs tol pat.1 pat.2 covStop (offsetsFor diffs pat.2.length)
          st.1 st.2) (ms, cov)).1, ∀ j, m.1.1 ≤ j → j < m.1.2 → j ∉ covStop) := by
  intro pats
  induction pats with
  | nil => intro ms cov _ h2 h3; exact ⟨h2, h3⟩
  | cons pat rest ih =>
    intro ms cov h1 h2 h3
    have hgo := scanStartGo_inv diffs tol pat.1 pat.2 covStop
      (offsetsFor diffs pat.2.length) ms cov h1 h2 h3
    simpa using ih (scanStartGo diffs tol pat.1 pat.2 covStop
        (offsetsFor diffs pat.2.length) ms cov).1
      (scanStartGo diffs tol pat.1 pat.2 covStop
        (offsetsFor diffs pat.2.length) ms cov).2
      hgo.1 hgo.2.1 hgo.2.2

/-- C4 counterexample: with tolerance 0, start table
`[("long", [3,4,5]), ("short", [2,3])]` and stop table `[("stp", [7,7])]` on
the timestamps below (diffs `[1,2,3,4,5,0,7,7,0,7,7]`), the start scan
accepts "long" at `(2,5)` and then "short" at `(1,3)` — only the *starting*
offset 1 is checked against the start covered set `{2,3,4}` — so the two
start-table matches both cover interval index 2, and `find` still succeeds
on this input, refuting "no two matches within the same pattern table share
an interval index". -/
theorem C4_counterexample :
    (scanStartTable (hsDiffs [0, 1, 3, 6, 10, 15, 15, 22, 29, 29, 36, 43]) 0
        [("long", [3, 4, 5]), ("short", [2, 3])]
        (scanStopTable (hsDiffs [0, 1, 3, 6, 10, 15, 15, 22, 29, 29, 36, 43]) 0
          [("stp", [7, 7])]).2).1.map Prod.fst = [(2, 5), (1, 3)] ∧
    ((1 : Nat) ≤ 2 ∧ (2 : Nat) < 3) ∧ ((2 : Nat) ≤ 2 ∧ (2 : Nat) < 5) ∧
    find [("long", [3, 4, 5]), ("short", [2, 3])] [("stp", [7, 7])]
        [0, 1, 3, 6, 10, 15, 15, 22, 29, 29, 36, 43] 0 =
      .ok ([((1, 3), (6, 8)), ((2, 5), (9, 11))], ["short", "long"],
        ["stp", "stp"]) := by
  refine ⟨by decide, by decide, by decide, ?_⟩
  rfl

/-- C4 amended: within the STOP table no two matches share an interval index
(each candidate window is checked in full against the stop covered set);
stop patterns are resolved first and no start match's window shares an index
with any stop match's window; within the START table, only the candidate's
*starting offset* is checked against the start covered set, so distinct
start matches never reuse a starting offset inside an earlier start window,
but may share their other indices (see the counterexample). -/
theorem C4_covered_index_discipline :
    ∀ (diffs : List Int) (tol : Int) (stopT startT : List (String × List Int)),
      List.Pairwise winDisjoint (scanStopTable diffs tol stopT).1 ∧
      (∀ ms ∈ (scanStartTable diffs tol startT (scanStopTable diffs tol stopT).2).1,
        ∀ mt ∈ (scanStopTable diffs tol stopT).1,
        ∀ j, ms.1.1 ≤ j → j < ms.1.2 → ¬(mt.1.1 ≤ j ∧ j < mt.1.2)) ∧
      List.Pairwise beginFree
        (scanStartTable diffs tol startT (scanStopTable diffs tol stopT).2).1 := by
  intro diffs tol stopT startT
  have hstop := scanStopTable_inv diffs tol stopT
  have hstart := scanStart_fold_inv diffs tol (scanStopTable diffs tol stopT).2
    (sortByLenDesc startT) [] [] (by simp) (by simp) (by simp)
  refine ⟨hstop.2, ?_, hstart.1⟩
  intro ms hms mt hmt j hj1 hj2 hbad
  have hj_in_stop : j ∈ (scanStopTable diffs tol stopT).2 :=
    hstop.1 mt hmt j hbad.1 hbad.2
  exact hstart.2 ms hms j hj1 hj2 hj_in_stop

/-- Witness for C4: the two stop matches `(6,8)` and `(9,11)` of the
concrete scan are disjoint; instantiated at interval index 7. -/
theorem C4_witness : ¬((9 : Nat) ≤ 7 ∧ 7 < 11) := by
  have h := (C4_covered_index_discipline
    (hsDiffs [0, 1, 3, 6, 10, 15, 15, 22, 29, 29, 36, 43]) 0
    [("stp", [7, 7])] [("long", [3, 4, 5]), ("short", [2, 3])]).1
  rw [show (scanStopTable (hsDiffs [0, 1, 3, 6, 10, 15, 15, 22, 29, 29, 36, 43])
      0 [("stp", [7, 7])]).1 = [((6, 8), "stp"), ((9, 11), "stp")] from by
    decide] at h
  exact (List.pairwise_cons.mp h).1 ((9, 11), "stp") (by simp) 7 (by decide)
    (by decide)

/-! ## Handshake detector: claim C5 (error handling and pairing) -/

lemma pairLoop_ok : ∀ (ss ts : List ((Nat × Nat) × String))
    (ps : List ((Nat × Nat) × (Nat × Nat))) (sns tns : List String),
    pairLoop ss ts = .ok (ps, sns, tns) →
    ps = (ss.map Prod.fst).zip (ts.map Prod.fst) ∧
    ∀ pr ∈ ps, pr.1.2 < pr.2.1 := by
  intro ss
  induction ss with
  | nil =>
    intro ts ps sns tns h
    have hunf : pairLoop [] ts = .ok ([], [], []) := by cases ts <;> rfl
    rw [hunf] at h
    simp only [Except.ok.injEq, Prod.mk.injEq] at h
    rw [← h.1]
    exact ⟨by simp, by simp⟩
  | cons x ss ih =>
    intro ts ps sns tns h
    cases ts with
    | nil =>
      have hunf : pairLoop (x :: ss) [] = .ok ([], [], []) := rfl
      rw [hunf] at h
      simp only [Except.ok.injEq, Prod.mk.injEq] at h
      rw [← h.1]
      exact ⟨by simp, by simp⟩
    | cons y ts =>
      rcases x with ⟨sr, sn⟩
      rcases y with ⟨tr, tn⟩
      by_cases hlt : sr.2 < tr.1
      · have hunf : pairLoop ((sr, sn) :: ss) ((tr, tn) :: ts) =
            match pairLoop ss ts with
            | .ok (ps2, sns2, tns2) =>
              .ok ((sr, tr) :: ps2, sn :: sns2, tn :: tns2)
            | .error msg => .error msg := by
          rw [pairLoop, if_pos hlt]
        rw [hunf] at h
        cases hrec : pairLoop ss ts with
        | ok res =>
          rcases res with ⟨ps2, sns2, tns2⟩
          rw [hrec] at h
          simp only [Except.ok.injEq, Prod.mk.injEq] at h
          obtain ⟨hres, -⟩ := h
          obtain ⟨hzip, hall⟩ := ih ts ps2 sns2 tns2 hrec
          rw [← hres]
          constructor
          · simp [hzip]
          · intro pr hpr
            rcases List.mem_cons.mp hpr with h | h
            · rw [h]; exact hlt
            · exact hall pr h
        | error msg =>
          rw [hrec] at h
          cases h
      · have hunf : pairLoop ((sr, sn) :: ss) ((tr, tn) :: ts) =
            .error "Stop sequence before start sequence" := by
          rw [pairLoop, if_neg hlt]
        rw [hunf] at h
        cases h

lemma pairLoop_error_of_bad (ss ts : List ((Nat × Nat) × String))
    (hbad : ∃ pr ∈ (ss.map Prod.fst).zip (ts.map Prod.fst), ¬pr.1.2 < pr.2.1) :
    ∃ msg, pairLoop ss ts = .error msg := by
  cases h : pairLoop ss ts with
  | ok res =>
    rcases res with ⟨ps, sns, tns⟩
    obtain ⟨hzip, hall⟩ := pairLoop_ok ss ts ps sns tns h
    obtain ⟨pr, hmem, hnot⟩ := hbad
    rw [← hzip] at hmem
    exact absurd (hall pr hmem) hnot
  | error msg => exact ⟨msg, rfl⟩

/-- C5: `find` raises when fewer than 2 timestamps are given; a successful
run implies both tables matched, with equal counts, and returns exactly the
`k`-th sorted start range paired with the `k`-th sorted stop range, every
returned pair satisfying `start_range.end < stop_range.begin` strictly;
zero matches in either table or a count mismatch always raises, and so does
any violating pair in the sorted pairing (never silently reordered). -/
theorem C5_find_error_handling :
    ∀ (startT stopT : List (String × List Int)) (ts : List Int) (tol : Int),
      (ts.length < 2 →
        find startT stopT ts tol =
          .error "Not enough timestamps for handshake detection") ∧
      (∀ ps sns tns, find startT stopT ts tol = .ok (ps, sns, tns) →
        (scanStartTable (hsDiffs ts) tol startT
            (scanStopTable (hsDiffs ts) tol stopT).2).1 ≠ [] ∧
        (scanStopTable (hsDiffs ts) tol stopT).1 ≠ [] ∧
        (scanStartTable (hsDiffs ts) tol startT
            (scanStopTable (hsDiffs ts) tol stopT).2).1.length =
          (scanStopTable (hsDiffs ts) tol stopT).1.length ∧
        ps = ((sortRanges (scanStartTable (hsDiffs ts) tol startT
            (scanStopTable (hsDiffs ts) tol stopT).2).1).map Prod.fst).zip
          ((sortRanges (scanStopTable (hsDiffs ts) tol stopT).1).map Prod.fst) ∧
        ∀ pr ∈ ps, pr.1.2 < pr.2.1) ∧
      (2 ≤ ts.length →
        ((scanStartTable (hsDiffs ts) tol startT
            (scanStopTable (hsDiffs ts) tol stopT).2).1 = [] ∨
          (scanStopTable (hsDiffs ts) tol stopT).1 = [] ∨
          (scanStartTable (hsDiffs ts) tol startT
            (scanStopTable (hsDiffs ts) tol stopT).2).1.length ≠
            (scanStopTable (hsDiffs ts) tol stopT).1.length) →
        ∃ msg, find startT stopT ts tol = .error msg) ∧
      (2 ≤ ts.length →
        (∃ pr ∈ ((sortRanges (scanStartTable (hsDiffs ts) tol startT
            (scanStopTable (hsDiffs ts) tol stopT).2).1).map Prod.fst).zip
          ((sortRanges (scanStopTable (hsDiffs ts) tol stopT).1).map Prod.fst),
          ¬pr.1.2 < pr.2.1) →
        ∃ msg, find startT stopT ts tol = .error msg) := by
  intro startT stopT ts tol
  have hok : ∀ ps sns tns, find startT stopT ts tol = .ok (ps, sns, tns) →
      (scanStartTable (hsDiffs ts) tol startT
          (scanStopTable (hsDiffs ts) tol stopT).2).1 ≠ [] ∧
      (scanStopTable (hsDiffs ts) tol stopT).1 ≠ [] ∧
      (scanStartTable (hsDiffs ts) tol startT
          (scanStopTable (hsDiffs ts) tol stopT).2).1.length =
        (scanStopTable (hsDiffs ts) tol stopT).1.length ∧
      ps = ((sortRanges (scanStartTable (hsDiffs ts) tol startT
          (scanStopTable (hsDiffs ts) tol stopT).2).1).map Prod.fst).zip
        ((sortRanges (scanStopTable (hsDiffs ts) tol stopT).1).map Prod.fst) ∧
      ∀ pr ∈ ps, pr.1.2 < pr.2.1 := by
    intro ps sns tns h
    by_cases hlen : ts.length < 2
    · rw [find, if_pos hlen] at h
      cases h
    · rw [find, if_neg hlen] at h
      simp only [] at h
      split at h
      · cases h
      · split at h
        · cases h
        · rename_i hemp hne
          simp only [Bool.or_eq_true, List.isEmpty_iff, not_or] at hemp
          rw [Ne, Decidable.not_not] at hne
          obtain ⟨hzip, hall⟩ := pairLoop_ok _ _ ps sns tns h
          exact ⟨hemp.1, hemp.2, hne, hzip, hall⟩
  refine ⟨?_, hok, ?_, ?_⟩
  · intro hlen
    rw [find, if_pos hlen]
  · intro hge hbad
    cases hfind : find startT stopT ts tol with
    | error msg => exact ⟨msg, rfl⟩
    | ok res =>
      rcases res with ⟨ps, sns, tns⟩
      obtain ⟨hne1, hne2, hlen, -, -⟩ := hok ps sns tns hfind
      rcases hbad with h | h | h
      · exact absurd h hne1
      · exact absurd h hne2
      · exact absurd hlen h
  · intro hge hbad
    cases hfind : find startT stopT ts tol with
    | error msg => exact ⟨msg, rfl⟩
    | ok res =>
      rcases res with ⟨ps, sns, tns⟩
      obtain ⟨-, -, -, hzip, hall⟩ := hok ps sns tns hfind
      obtain ⟨pr, hmem, hnot⟩ := hbad
      rw [← hzip] at hmem
      exact absurd (hall pr hmem) hnot

/-- Witness for C5: the single-timestamp input raises, and on the concrete
twelve-timestamp input of the C4 analysis `find` succeeds with every
returned pair strictly start-before-stop. -/
theorem C5_witness :
    find [("long", [3, 4, 5]), ("short", [2, 3])] [("stp", [7, 7])] [5] 0 =
      .error "Not enough timestamps for handshake detection" ∧
    (∀ pr ∈ [((1, 3), (6, 8)), ((2, 5), (9, 11))], pr.1.2 < pr.2.1) := by
  constructor
  · exact (C5_find_error_handling [("long", [3, 4, 5]), ("short", [2, 3])]
      [("stp", [7, 7])] [5] 0).1 (by decide)
  · have h := (C5_find_error_handling [("long", [3, 4, 5]), ("short", [2, 3])]
      [("stp", [7, 7])] [0, 1, 3, 6, 10, 15, 15, 22, 29, 29, 36, 43] 0).2.1
      [((1, 3), (6, 8)), ((2, 5), (9, 11))] ["short", "long"] ["stp", "stp"]
      (by rfl)
    exact h.2.2.2.2

end Syncing
